import Mathlib

/-!
Verification of the JSON-RPC transport core of the acp-go-sdk repository.

The Go source (`connection.go`, `agent.go`) is shallowly embedded: byte
strings become `List Char`, Go `int` arithmetic that may go negative is
carried out in `Int`, fallible functions return `Except`.  The embedding
lives in namespace `Acp`; each definition keeps the name of the Go function
it translates.
-/

namespace Acp

set_option maxHeartbeats 1000000
set_option maxRecDepth 4000

/-- Equality on `Except` is decidable when it is on both components; used to
evaluate the embedded fallible functions on concrete inputs. -/
instance {ε α : Type} [DecidableEq ε] [DecidableEq α] : DecidableEq (Except ε α) := fun x y =>
  match x, y with
  | .ok a, .ok b =>
    if h : a = b then .isTrue (by rw [h]) else .isFalse (by intro hh; cases hh; exact h rfl)
  | .error a, .error b =>
    if h : a = b then .isTrue (by rw [h]) else .isFalse (by intro hh; cases hh; exact h rfl)
  | .ok _, .error _ => .isFalse (by intro hh; cases hh)
  | .error _, .ok _ => .isFalse (by intro hh; cases hh)

/-- Error kinds produced by the id-canonicalisation pipeline.  The Go code
distinguishes errors by `error` values / messages; claims only depend on
whether an error occurred and whether it is `errJSONRPCNumericIDTooLarge`,
so the distinct Go error values are collapsed onto this enumeration. -/
inductive CanonErr where
  | emptyID
  | decodeErr
  | trailingData
  | badType
  | invalidNumericID
  | tooLarge
  deriving DecidableEq, Repr

/-- Tuning constant `maxCanonicalJSONRPCIDKeyLen = 4096` from `connection.go`. -/
def maxCanonicalJSONRPCIDKeyLen : Nat := 4096

/-- Tuning constant `maxCanonicalJSONRPCIDAbsExp10 = 4096` from `connection.go`. -/
def maxCanonicalJSONRPCIDAbsExp10 : Nat := 4096

/-- Tuning constant `maxPendingCancelRequests = 1024` from `connection.go`. -/
def maxPendingCancelRequests : Nat := 1024

/-- Translation of `isASCIIDigit` from `connection.go`. -/
def isASCIIDigit (c : Char) : Bool := '0' ≤ c && c ≤ '9'

/-- Numeric value of an ASCII digit character (`raw[i] - '0'` in Go). -/
def digitToNat (c : Char) : Nat := c.toNat - '0'.toNat

/-- The Latin-1 fragment of Go `unicode.IsSpace`, used by `strings.TrimSpace`
and `bytes.TrimSpace`.  Space runes above U+00FF exist in Go as well but can
never occur around a JSON token produced by `encoding/json`, and no claim
exercises them. -/
def goIsSpace (c : Char) : Bool :=
  c = ' ' || c = '\t' || c = '\n' || c.toNat = 11 || c.toNat = 12 || c = '\r' ||
    c.toNat = 133 || c.toNat = 160

/-- Translation of `strings.TrimSpace` / `bytes.TrimSpace`: remove leading
and trailing white space. -/
def trimSpace (l : List Char) : List Char :=
  ((l.dropWhile goIsSpace).reverse.dropWhile goIsSpace).reverse

/-- Sign scanning step of `parseJSONRPCNumericID` (`connection.go`, lines
151-158): an optional leading minus; a lone minus is invalid.  The Go code
is only reached with a non-empty string, on `[]` we return `none` like the
empty-after-minus case. -/
def scanSign : List Char → Option (Bool × List Char)
  | [] => none
  | '-' :: rest => if rest = [] then none else some (true, rest)
  | l => some (false, l)

/-- Integer-part scanning step of `parseJSONRPCNumericID` (lines 160-174):
either a single `0` not followed by a digit, or a nonzero digit followed by
any digits. -/
def scanIntDigits : List Char → Option (List Char × List Char)
  | [] => none
  | c :: rest =>
    if c = '0' then
      match rest with
      | r :: _ => if isASCIIDigit r then none else some (['0'], rest)
      | [] => some (['0'], [])
    else if '1' ≤ c && c ≤ '9' then
      some ((c :: rest).takeWhile isASCIIDigit, (c :: rest).dropWhile isASCIIDigit)
    else none

/-- Fraction scanning step of `parseJSONRPCNumericID` (lines 176-187): an
optional `.` followed by at least one digit. -/
def scanFrac : List Char → Option (List Char × List Char)
  | '.' :: rest =>
    if rest.takeWhile isASCIIDigit = [] then none
    else some (rest.takeWhile isASCIIDigit, rest.dropWhile isASCIIDigit)
  | l => some (([] : List Char), l)

/-- Digit scanning for the exponent part (the `exponentStart` loop of
`parseJSONRPCNumericID`): at least one digit must follow; returns the
exponent sign, the exponent digit string and the unconsumed input. -/
def scanExpDigits (sign : Int) (body : List Char) :
    Option (Int × List Char × List Char) :=
  if body = [] then none
  else if body.takeWhile isASCIIDigit = [] then none
  else some (sign, body.takeWhile isASCIIDigit, body.dropWhile isASCIIDigit)

/-- Exponent scanning step of `parseJSONRPCNumericID` (lines 189-214), up to
but excluding the `parseBoundedInt` call: an optional `e`/`E`, an optional
sign, then at least one digit (via `scanExpDigits`). -/
def scanExpPart : List Char → Option (Int × List Char × List Char)
  | [] => some (1, [], [])
  | c :: rest =>
    if c = 'e' || c = 'E' then
      match rest with
      | [] => none
      | s :: rest2 =>
        if s = '+' || s = '-' then scanExpDigits (if s = '-' then -1 else 1) rest2
        else scanExpDigits 1 (s :: rest2)
    else some (1, [], c :: rest)

/-- Loop body of `parseBoundedInt` (`connection.go`, lines 243-253).  The
bound check `value > (max-digit)/10` is evaluated in `Nat`; since `digit ≤ 9`
and the only caller passes `max = 4096`, the Go `int` subtraction never goes
negative, so `Nat` truncated subtraction agrees with it. -/
def parseBoundedIntLoop (raw : List Char) (max value : Nat) : Except CanonErr Nat :=
  match raw with
  | [] => .ok value
  | c :: rest =>
    if !isASCIIDigit c then .error .invalidNumericID
    else
      let digit := digitToNat c
      if value > (max - digit) / 10 then .error .tooLarge
      else parseBoundedIntLoop rest max (value * 10 + digit)

/-- Translation of `parseBoundedInt` from `connection.go` (lines 238-255). -/
def parseBoundedInt (raw : List Char) (max : Nat) : Except CanonErr Nat :=
  if raw = [] then .error .invalidNumericID
  else parseBoundedIntLoop raw max 0

/-- Translation of `parseJSONRPCNumericID` from `connection.go` (lines
150-236), assembled from the scanning steps above: scan sign, integer part,
fraction, exponent (bounding the exponent magnitude through
`parseBoundedInt` before the trailing-input check, as the Go control flow
does), reject trailing input, strip leading zeros, bound the significant
digit count, and return `(negative, digits, exp10)` with
`exp10 = exponent - len(fracDigits)`. -/
def parseJSONRPCNumericID (raw : List Char) :
    Except CanonErr (Bool × List Char × Int) :=
  match scanSign raw with
  | none => .error .invalidNumericID
  | some (negative, afterSign) =>
    match scanIntDigits afterSign with
    | none => .error .invalidNumericID
    | some (intDigits, afterInt) =>
      match scanFrac afterInt with
      | none => .error .invalidNumericID
      | some (fracDigits, afterFrac) =>
        match scanExpPart afterFrac with
        | none => .error .invalidNumericID
        | some (expSign, expDigits, rest) =>
          (if expDigits = [] then .ok (0 : Int)
           else (parseBoundedInt expDigits maxCanonicalJSONRPCIDAbsExp10).map
             (fun m => expSign * Int.ofNat m)).bind fun exponent =>
            if rest ≠ [] then .error .invalidNumericID
            else
              let digits := (intDigits ++ fracDigits).dropWhile (fun c => c = '0')
              if digits = [] then .ok (false, [], 0)
              else if maxCanonicalJSONRPCIDKeyLen < digits.length then .error .tooLarge
              else .ok (negative, digits, exponent - fracDigits.length)

/-- The trailing-zero stripping loop at the top of
`formatCanonicalJSONRPCNumericID` (lines 262-265): remove trailing `'0'`
characters and count how many were removed (each removal increments
`exp10`). -/
def trimTrailingZeros : List Char → List Char × Nat
  | [] => ([], 0)
  | c :: cs =>
    match trimTrailingZeros cs with
    | ([], k) => if c = '0' then ([], k + 1) else ([c], k)
    | (r, k) => (c :: r, k)

/-- Translation of `formatCanonicalJSONRPCNumericID` from `connection.go`
(lines 261-317).  All length comparisons involving `exp10` are Go `int`
comparisons and are carried out in `Int`. -/
def formatCanonicalJSONRPCNumericID (negative : Bool) (digits0 : List Char)
    (exp0 : Int) : Except CanonErr (List Char) :=
  let digits := (trimTrailingZeros digits0).1
  let exp10 : Int := exp0 + (trimTrailingZeros digits0).2
  if digits = [] then .ok ['0']
  else
    let sign : List Char := if negative then ['-'] else []
    if 0 ≤ exp10 then
      if (maxCanonicalJSONRPCIDKeyLen : Int) - digits.length < exp10 then .error .tooLarge
      else
        let result := sign ++ (digits ++ List.replicate exp10.toNat '0')
        if (maxCanonicalJSONRPCIDKeyLen : Int) + sign.length < result.length then
          .error .tooLarge
        else .ok result
    else
      let scale : Int := -exp10
      if (maxCanonicalJSONRPCIDKeyLen : Int) < scale then .error .tooLarge
      else if scale < digits.length then
        let intPart := digits.take (digits.length - scale.toNat)
        let fracPart := digits.drop (digits.length - scale.toNat)
        if (maxCanonicalJSONRPCIDKeyLen : Int) < intPart.length + 1 + fracPart.length then
          .error .tooLarge
        else .ok (sign ++ intPart ++ '.' :: fracPart)
      else
        let leadingZeros : Int := scale - digits.length
        if (maxCanonicalJSONRPCIDKeyLen : Int) - digits.length - 2 < leadingZeros then
          .error .tooLarge
        else .ok (sign ++ '0' :: '.' :: (List.replicate leadingZeros.toNat '0' ++ digits))

/-- Translation of `canonicalJSONRPCNumericIDKey` from `connection.go`
(lines 136-148). -/
def canonicalJSONRPCNumericIDKey (v : List Char) : Except CanonErr (List Char) :=
  let raw := trimSpace v
  if raw = [] then .error .invalidNumericID
  else
    match parseJSONRPCNumericID raw with
    | .error e => .error e
    | .ok (negative, digits, exp10) => formatCanonicalJSONRPCNumericID negative digits exp10

/-! ## The generic id canonicaliser

`canonicalJSONRPCIDKey` (connection.go lines 98-134) decodes a single JSON
value (with numbers kept textual via `UseNumber`) and dispatches: `null`,
strings (re-encoded through `json.Marshal`) and numbers.  The decoder is
modelled by first-character dispatch on the trimmed bytes, which agrees with
`encoding/json` on every input class: a leading `"` starts a string, the
exact bytes `null` are the null literal, a leading `-` or digit starts a
number token (validated by the same grammar `parseJSONRPCNumericID`
implements), and anything else (`true`, `false`, objects, arrays, garbage)
is rejected — Go distinguishes those rejections only by error message,
which `CanonErr` collapses. -/

/-- Value of a hexadecimal digit, `none` for other characters. -/
def hexDigitVal (c : Char) : Option Nat :=
  if '0' ≤ c && c ≤ '9' then some (c.toNat - 48)
  else if 'a' ≤ c && c ≤ 'f' then some (c.toNat - 97 + 10)
  else if 'A' ≤ c && c ≤ 'F' then some (c.toNat - 65 + 10)
  else none

/-- Lower-case hexadecimal digit character for a value below 16. -/
def hexDigitChar (n : Nat) : Char :=
  if n < 10 then Char.ofNat (48 + n) else Char.ofNat (97 + (n - 10))

/-- Combined value of four hexadecimal digits (`getu4` in encoding/json). -/
def hexQuad (h1 h2 h3 h4 : Char) : Option Nat :=
  match hexDigitVal h1, hexDigitVal h2, hexDigitVal h3, hexDigitVal h4 with
  | some a, some b, some c, some d => some (((a * 16 + b) * 16 + c) * 16 + d)
  | _, _, _, _ => none

/-- JSON string-body decoding as `encoding/json` performs it: stops at the
closing quote returning the remaining input, processes the standard
escapes, combines UTF-16 surrogate pairs written as two `\u` escapes and
replaces unpaired surrogates by U+FFFD, and rejects raw control characters.
Recursion is fuelled by the input length (each step consumes at least one
character). -/
def jsonStringDecodeAux : Nat → List Char → Option (List Char × List Char)
  | 0, _ => none
  | _ + 1, [] => none
  | fuel + 1, c :: rest =>
    if c = '"' then some ([], rest)
    else if c = '\\' then
      match rest with
      | [] => none
      | e :: rest2 =>
        if e = '"' ∨ e = '\\' ∨ e = '/' then
          (jsonStringDecodeAux fuel rest2).map (fun p => (e :: p.1, p.2))
        else if e = 'b' then
          (jsonStringDecodeAux fuel rest2).map (fun p => (Char.ofNat 8 :: p.1, p.2))
        else if e = 'f' then
          (jsonStringDecodeAux fuel rest2).map (fun p => (Char.ofNat 12 :: p.1, p.2))
        else if e = 'n' then
          (jsonStringDecodeAux fuel rest2).map (fun p => ('\n' :: p.1, p.2))
        else if e = 'r' then
          (jsonStringDecodeAux fuel rest2).map (fun p => ('\n' :: p.1, p.2))
        else if e = 't' then
          (jsonStringDecodeAux fuel rest2).map (fun p => ('\t' :: p.1, p.2))
        else if e = 'u' then
          match rest2 with
          | h1 :: h2 :: h3 :: h4 :: rest3 =>
            match hexQuad h1 h2 h3 h4 with
            | none => none
            | some r =>
              if 55296 ≤ r ∧ r ≤ 57343 then
                match rest3 with
                | '\\' :: 'u' :: g1 :: g2 :: g3 :: g4 :: rest4 =>
                  match hexQuad g1 g2 g3 g4 with
                  | some r2 =>
                    if 55296 ≤ r ∧ r ≤ 56319 ∧ 56320 ≤ r2 ∧ r2 ≤ 57343 then
                      (jsonStringDecodeAux fuel rest4).map
                        (fun p => (Char.ofNat (65536 + (r - 55296) * 1024 + (r2 - 56320)) :: p.1, p.2))
                    else
                      (jsonStringDecodeAux fuel rest3).map
                        (fun p => (Char.ofNat 65533 :: p.1, p.2))
                  | none =>
                    (jsonStringDecodeAux fuel rest3).map
                      (fun p => (Char.ofNat 65533 :: p.1, p.2))
                | _ =>
                  (jsonStringDecodeAux fuel rest3).map
                    (fun p => (Char.ofNat 65533 :: p.1, p.2))
              else
                (jsonStringDecodeAux fuel rest3).map (fun p => (Char.ofNat r :: p.1, p.2))
          | _ => none
        else none
    else if c.toNat < 32 then none
    else (jsonStringDecodeAux fuel rest).map (fun p => (c :: p.1, p.2))

/-- Escaping of one character as `json.Marshal` performs it for string
values (HTML escaping enabled, the `json.Marshal` default). -/
def jsonEscapeChar (c : Char) : List Char :=
  if c = '"' then ['\\', '"']
  else if c = '\\' then ['\\', '\\']
  else if c = '\n' then ['\\', 'n']
  else if c = '\r' then ['\\', 'r']
  else if c = '\t' then ['\\', 't']
  else if c = '<' then ['\\', 'u', '0', '0', '3', 'c']
  else if c = '>' then ['\\', 'u', '0', '0', '3', 'e']
  else if c = '&' then ['\\', 'u', '0', '0', '2', '6']
  else if c.toNat < 32 then
    ['\\', 'u', '0', '0', hexDigitChar (c.toNat / 16), hexDigitChar (c.toNat % 16)]
  else if c.toNat = 8232 then ['\\', 'u', '2', '0', '2', '8']
  else if c.toNat = 8233 then ['\\', 'u', '2', '0', '2', '9']
  else [c]

/-- Translation of `canonicalJSONRPCIDKey` from `connection.go` (lines
98-134). -/
def canonicalJSONRPCIDKey (raw : List Char) : Except CanonErr (List Char) :=
  match trimSpace raw with
  | [] => .error .emptyID
  | '"' :: rest =>
    match jsonStringDecodeAux (rest.length + 1) rest with
    | none => .error .decodeErr
    | some (content, rest2) =>
      if rest2 ≠ [] then .error .trailingData
      else .ok ('"' :: (content.flatMap jsonEscapeChar ++ ['"']))
  | c :: t =>
    if c :: t = ['n', 'u', 'l', 'l'] then .ok ['n', 'u', 'l', 'l']
    else if c = '-' || isASCIIDigit c then canonicalJSONRPCNumericIDKey raw
    else .error .badType

/-! ## Value semantics of number literals

The decimal value a JSON number literal denotes, and the value a canonical
key denotes, both as rationals.  These are the specification-side notions
used to state that canonicalisation identifies exactly the literals with
equal numeric value. -/

/-- The natural number denoted by a string of ASCII digits (most significant
first), `0` for the empty string. -/
def natVal (ds : List Char) : Nat := ds.foldl (fun a c => 10 * a + digitToNat c) 0

/-- The rational `sign * digits * 10 ^ exp10` denoted by a parsed numeric id
triple. -/
def ratValue (negative : Bool) (digits : List Char) (e : Int) : ℚ :=
  (if negative then -1 else 1) * (natVal digits : ℚ) * (10 : ℚ) ^ e

/-- The rational value denoted by a JSON number literal (after the same
whitespace trimming the canonicaliser performs): the integer and fraction
digits read as a single integer, scaled by ten to the written exponent minus
the fraction length, and negated for a leading minus.  `none` when the input
is not a single well-formed JSON number literal. -/
def numberLiteralValue (raw : List Char) : Option ℚ :=
  match scanSign (trimSpace raw) with
  | none => none
  | some (negative, a1) =>
    match scanIntDigits a1 with
    | none => none
    | some (intDigits, a2) =>
      match scanFrac a2 with
      | none => none
      | some (fracDigits, a3) =>
        match scanExpPart a3 with
        | none => none
        | some (expSign, expDigits, rest) =>
          if rest = [] then
            some (ratValue negative (intDigits ++ fracDigits)
              (expSign * (natVal expDigits : Int) - fracDigits.length))
          else none

/-- The rational value denoted by an unsigned canonical decimal key: the
digits before the dot, plus the digits after the dot scaled down by their
count. -/
def decValUnsigned (l : List Char) : ℚ :=
  match l.dropWhile (fun c => c ≠ '.') with
  | [] => (natVal l : ℚ)
  | _ :: frac =>
    (natVal (l.takeWhile (fun c => c ≠ '.')) : ℚ) + (natVal frac : ℚ) / (10 : ℚ) ^ frac.length

/-- The rational value denoted by a canonical decimal key, sign included. -/
def decVal : List Char → ℚ
  | '-' :: rest => -(decValUnsigned rest)
  | l => decValUnsigned l

/-- The canonical decimal digit sequence (sign excluded) the formatter
produces for a normalised pair `(digits, e)` with `digits` carrying no
trailing zeros: the mirror of the three success branches of
`formatCanonicalJSONRPCNumericID`. -/
def canonicalUnsigned (r : List Char) (e : Int) : List Char :=
  if 0 ≤ e then r ++ List.replicate e.toNat '0'
  else if -e < (r.length : Int) then
    r.take (r.length - (-e).toNat) ++ '.' :: r.drop (r.length - (-e).toNat)
  else '0' :: '.' :: (List.replicate ((-e).toNat - r.length) '0' ++ r)

/-- Length of the canonical key the formatter would produce, sign excluded
(`1` for the zero key `"0"`). -/
def canonicalUnsignedLen (r : List Char) (e : Int) : Nat :=
  if r = [] then 1
  else if 0 ≤ e then r.length + e.toNat
  else if -e < (r.length : Int) then r.length + 1
  else (-e).toNat + 2

/-- Every character of the list is an ASCII digit. -/
def allDigits (l : List Char) : Prop := ∀ c ∈ l, isASCIIDigit c

/-! ## Basic facts about digit characters and digit strings -/

lemma isASCIIDigit_iff {c : Char} : isASCIIDigit c = true ↔ 48 ≤ c.toNat ∧ c.toNat ≤ 57 := by
  unfold isASCIIDigit
  rw [Bool.and_eq_true, decide_eq_true_eq, decide_eq_true_eq, Char.le_def, Char.le_def]
  exact Iff.rfl

lemma char_zero_toNat : '0'.toNat = 48 := rfl

lemma digitToNat_lt {c : Char} (h : isASCIIDigit c = true) : digitToNat c < 10 := by
  have := isASCIIDigit_iff.mp h
  unfold digitToNat
  rw [char_zero_toNat]
  omega

lemma digitToNat_eq_char {c d : Char} (hc : isASCIIDigit c = true)
    (hd : isASCIIDigit d = true) (h : digitToNat c = digitToNat d) : c = d := by
  have h1 := isASCIIDigit_iff.mp hc
  have h2 := isASCIIDigit_iff.mp hd
  apply Char.eq_of_val_eq
  apply UInt32.ext
  show c.toNat = d.toNat
  unfold digitToNat at h
  rw [char_zero_toNat] at h
  omega

lemma digitToNat_zero : digitToNat '0' = 0 := rfl

lemma digitToNat_pos {c : Char} (hc : isASCIIDigit c = true) (h : c ≠ '0') :
    1 ≤ digitToNat c := by
  have h1 := isASCIIDigit_iff.mp hc
  have : c.toNat ≠ 48 := by
    intro he
    exact h (digitToNat_eq_char hc (by decide)
      (by unfold digitToNat; rw [char_zero_toNat, he]))
  unfold digitToNat
  rw [char_zero_toNat]
  omega

lemma natVal_foldl (l : List Char) (a : Nat) :
    l.foldl (fun a c => 10 * a + digitToNat c) a = a * 10 ^ l.length + natVal l := by
  induction l generalizing a with
  | nil => simp [natVal]
  | cons c t ih =>
    simp only [List.foldl_cons, List.length_cons, natVal]
    rw [ih (10 * a + digitToNat c), ih (10 * 0 + digitToNat c)]
    ring

lemma natVal_nil : natVal ([] : List Char) = 0 := rfl

lemma natVal_cons (c : Char) (t : List Char) :
    natVal (c :: t) = digitToNat c * 10 ^ t.length + natVal t := by
  show (c :: t).foldl _ 0 = _
  rw [List.foldl_cons, natVal_foldl]
  ring_nf

lemma natVal_append (a b : List Char) :
    natVal (a ++ b) = natVal a * 10 ^ b.length + natVal b := by
  show (a ++ b).foldl _ 0 = _
  rw [List.foldl_append, natVal_foldl]
  rfl

lemma natVal_concat (a : List Char) (c : Char) :
    natVal (a ++ [c]) = 10 * natVal a + digitToNat c := by
  rw [natVal_append]
  simp [natVal_cons, natVal_nil]
  ring

lemma natVal_replicate_zero (k : Nat) : natVal (List.replicate k '0') = 0 := by
  induction k with
  | zero => rfl
  | succ n ih => rw [List.replicate_succ, natVal_cons, digitToNat_zero, ih]; ring

lemma natVal_dropWhile_zero (l : List Char) :
    natVal (l.dropWhile (fun c => c = '0')) = natVal l := by
  induction l with
  | nil => rfl
  | cons c t ih =>
    by_cases h : c = '0'
    · rw [List.dropWhile_cons_of_pos (by simp [h]), ih, natVal_cons, h, digitToNat_zero]
      ring
    · rw [List.dropWhile_cons_of_neg (by simp [h])]

lemma natVal_lt (l : List Char) (h : allDigits l) : natVal l < 10 ^ l.length := by
  induction l with
  | nil => simp [natVal_nil]
  | cons c t ih =>
    have hc : digitToNat c < 10 := digitToNat_lt (h c (by simp))
    have ht : natVal t < 10 ^ t.length := ih (fun x hx => h x (by simp [hx]))
    have hP : 0 < 10 ^ t.length := Nat.pos_pow_of_pos _ (by norm_num)
    rw [natVal_cons, List.length_cons, pow_succ]
    nlinarith

lemma natVal_lower (c : Char) (t : List Char) (hc : isASCIIDigit c = true)
    (h0 : c ≠ '0') : 10 ^ t.length ≤ natVal (c :: t) := by
  have h1 := digitToNat_pos hc h0
  rw [natVal_cons]
  calc 10 ^ t.length = 1 * 10 ^ t.length := by ring
    _ ≤ digitToNat c * 10 ^ t.length := Nat.mul_le_mul_right _ h1
    _ ≤ digitToNat c * 10 ^ t.length + natVal t := Nat.le_add_right _ _

lemma natVal_pos (c : Char) (t : List Char) (hc : isASCIIDigit c = true)
    (h0 : c ≠ '0') : 0 < natVal (c :: t) := by
  have h1 := natVal_lower c t hc h0
  have h2 : 0 < 10 ^ t.length := Nat.pos_pow_of_pos _ (by norm_num)
  omega

lemma mul_pow_add_inj {P d₁ d₂ v₁ v₂ : Nat} (hP : 0 < P) (h₁ : v₁ < P) (h₂ : v₂ < P)
    (h : d₁ * P + v₁ = d₂ * P + v₂) : d₁ = d₂ ∧ v₁ = v₂ := by
  have e₁ : (d₁ * P + v₁) / P = d₁ := by
    rw [Nat.mul_comm d₁ P, Nat.mul_add_div hP, Nat.div_eq_of_lt h₁]
    omega
  have e₂ : (d₂ * P + v₂) / P = d₂ := by
    rw [Nat.mul_comm d₂ P, Nat.mul_add_div hP, Nat.div_eq_of_lt h₂]
    omega
  have hd : d₁ = d₂ := by rw [← e₁, ← e₂, h]
  subst hd
  exact ⟨rfl, by omega⟩

lemma natVal_inj_length (l₁ l₂ : List Char) (h₁ : allDigits l₁) (h₂ : allDigits l₂)
    (hl : l₁.length = l₂.length) (hv : natVal l₁ = natVal l₂) : l₁ = l₂ := by
  induction l₁ generalizing l₂ with
  | nil =>
    cases l₂ with
    | nil => rfl
    | cons c t => simp at hl
  | cons c t ih =>
    cases l₂ with
    | nil => simp at hl
    | cons c2 t2 =>
      simp only [List.length_cons] at hl
      have hl2 : t.length = t2.length := by omega
      rw [natVal_cons, natVal_cons, hl2] at hv
      have hb₁ : natVal t < 10 ^ t2.length := hl2 ▸ natVal_lt t (fun x hx => h₁ x (by simp [hx]))
      have hb₂ : natVal t2 < 10 ^ t2.length := natVal_lt t2 (fun x hx => h₂ x (by simp [hx]))
      have hP : 0 < 10 ^ t2.length := Nat.pos_pow_of_pos _ (by norm_num)
      obtain ⟨hd, hval⟩ := mul_pow_add_inj hP hb₁ hb₂ hv
      have hc : c = c2 :=
        digitToNat_eq_char (h₁ c (by simp)) (h₂ c2 (by simp)) hd
      rw [hc, ih t2 (fun x hx => h₁ x (by simp [hx])) (fun x hx => h₂ x (by simp [hx])) hl2 hval]

/-- No-leading-zero digit strings are determined by their numeric value. -/
lemma natVal_inj (l₁ l₂ : List Char) (h₁ : allDigits l₁) (h₂ : allDigits l₂)
    (hz₁ : l₁.head? ≠ some '0') (hz₂ : l₂.head? ≠ some '0')
    (hv : natVal l₁ = natVal l₂) : l₁ = l₂ := by
  cases l₁ with
  | nil =>
    cases l₂ with
    | nil => rfl
    | cons c t =>
      exfalso
      have := natVal_pos c t (h₂ c (by simp)) (by simpa using hz₂)
      rw [← hv, natVal_nil] at this
      omega
  | cons c t =>
    cases l₂ with
    | nil =>
      exfalso
      have := natVal_pos c t (h₁ c (by simp)) (by simpa using hz₁)
      rw [hv, natVal_nil] at this
      omega
    | cons c2 t2 =>
      apply natVal_inj_length _ _ h₁ h₂ _ hv
      have lo₁ := natVal_lower c t (h₁ c (by simp)) (by simpa using hz₁)
      have hi₁ := natVal_lt (c :: t) h₁
      have lo₂ := natVal_lower c2 t2 (h₂ c2 (by simp)) (by simpa using hz₂)
      have hi₂ := natVal_lt (c2 :: t2) h₂
      rw [hv] at lo₁ hi₁
      simp only [List.length_cons]
      have e1 : t.length ≤ t2.length := by
        by_contra hlt
        push_neg at hlt
        have : 10 ^ (t2.length + 1) ≤ 10 ^ t.length :=
          Nat.pow_le_pow_right (by norm_num) (by omega)
        simp only [List.length_cons] at hi₂
        omega
      have e2 : t2.length ≤ t.length := by
        by_contra hlt
        push_neg at hlt
        have : 10 ^ (t.length + 1) ≤ 10 ^ t2.length :=
          Nat.pow_le_pow_right (by norm_num) (by omega)
        simp only [List.length_cons] at hi₁
        omega
      omega

/-! ## Facts about trailing-zero stripping -/

lemma trimTrailingZeros_cons_nil (c : Char) (t : List Char) (k : Nat)
    (h : trimTrailingZeros t = ([], k)) :
    trimTrailingZeros (c :: t) = if c = '0' then ([], k + 1) else ([c], k) := by
  unfold trimTrailingZeros
  rw [h]

lemma trimTrailingZeros_cons_cons (c : Char) (t : List Char) (r0 : Char)
    (rt : List Char) (k : Nat) (h : trimTrailingZeros t = (r0 :: rt, k)) :
    trimTrailingZeros (c :: t) = (c :: r0 :: rt, k) := by
  unfold trimTrailingZeros
  rw [h]

lemma trimTrailingZeros_append (d : List Char) :
    d = (trimTrailingZeros d).1 ++ List.replicate (trimTrailingZeros d).2 '0' := by
  induction d with
  | nil => rfl
  | cons c t ih =>
    rcases h : trimTrailingZeros t with ⟨r, k⟩
    rw [h] at ih
    cases r with
    | nil =>
      simp only [List.nil_append] at ih
      by_cases hc : c = '0'
      · rw [trimTrailingZeros_cons_nil c t k h, if_pos hc]
        show c :: t = [] ++ List.replicate (k + 1) '0'
        rw [List.nil_append, List.replicate_succ, ← ih, hc]
      · rw [trimTrailingZeros_cons_nil c t k h, if_neg hc]
        show c :: t = [c] ++ List.replicate k '0'
        rw [ih]
        rfl
    | cons r0 rt =>
      rw [trimTrailingZeros_cons_cons c t r0 rt k h]
      show c :: t = (c :: (r0 :: rt)) ++ List.replicate k '0'
      rw [List.cons_append, ← ih]

lemma trimTrailingZeros_last (d : List Char) :
    (trimTrailingZeros d).1 = [] ∨
      ∃ a c, (trimTrailingZeros d).1 = a ++ [c] ∧ c ≠ '0' := by
  induction d with
  | nil => left; rfl
  | cons c t ih =>
    rcases h : trimTrailingZeros t with ⟨r, k⟩
    rw [h] at ih
    cases r with
    | nil =>
      by_cases hc : c = '0'
      · rw [trimTrailingZeros_cons_nil c t k h, if_pos hc]
        left
        rfl
      · rw [trimTrailingZeros_cons_nil c t k h, if_neg hc]
        right
        exact ⟨[], c, rfl, hc⟩
    | cons r0 rt =>
      rw [trimTrailingZeros_cons_cons c t r0 rt k h]
      rcases ih with hnil | ⟨a, c2, ha, hc2⟩
      · simp at hnil
      · right
        simp only at ha
        exact ⟨c :: a, c2, by simp [ha], hc2⟩

lemma trimTrailingZeros_natVal (d : List Char) :
    natVal d = natVal (trimTrailingZeros d).1 * 10 ^ (trimTrailingZeros d).2 := by
  conv_lhs => rw [trimTrailingZeros_append d]
  rw [natVal_append, natVal_replicate_zero, List.length_replicate]
  omega

lemma trimTrailingZeros_head (d : List Char) (c : Char) (rest : List Char)
    (h : (trimTrailingZeros d).1 = c :: rest) : d.head? = some c := by
  have := trimTrailingZeros_append d
  rw [h] at this
  rw [this]
  rfl

lemma trimTrailingZeros_allDigits (d : List Char) (h : allDigits d) :
    allDigits (trimTrailingZeros d).1 := by
  intro c hc
  apply h
  rw [trimTrailingZeros_append d]
  exact List.mem_append_left _ hc

lemma trimTrailingZeros_not_dvd (d : List Char) (hd : allDigits d)
    (hne : (trimTrailingZeros d).1 ≠ []) : ¬ 10 ∣ natVal (trimTrailingZeros d).1 := by
  rcases trimTrailingZeros_last d with h | ⟨a, c, ha, hc⟩
  · exact absurd h hne
  · rw [ha, natVal_concat]
    have hcd : isASCIIDigit c = true := by
      apply trimTrailingZeros_allDigits d hd
      rw [ha]
      simp
    have h1 := digitToNat_pos hcd hc
    have h2 := digitToNat_lt hcd
    intro hdvd
    omega

/-! ## Characterisation of parseBoundedInt -/

lemma parseBoundedIntLoop_spec (raw : List Char) (max : Nat) (hmax : 9 ≤ max) :
    ∀ acc, allDigits raw → acc ≤ max →
      (max < acc * 10 ^ raw.length + natVal raw →
        parseBoundedIntLoop raw max acc = .error .tooLarge) ∧
      (acc * 10 ^ raw.length + natVal raw ≤ max →
        parseBoundedIntLoop raw max acc = .ok (acc * 10 ^ raw.length + natVal raw)) := by
  induction raw with
  | nil =>
    intro acc _ hacc
    refine ⟨fun h => ?_, fun h => ?_⟩
    · rw [natVal_nil] at h
      simp at h
      omega
    · simp [parseBoundedIntLoop, natVal_nil]
  | cons c t ih =>
    intro acc hdig hacc
    have hc : isASCIIDigit c = true := hdig c (by simp)
    have hclt : digitToNat c < 10 := digitToNat_lt hc
    have ht : allDigits t := fun x hx => hdig x (by simp [hx])
    have hP : 0 < 10 ^ t.length := Nat.pos_pow_of_pos _ (by norm_num)
    have hvt : natVal t < 10 ^ t.length := natVal_lt t ht
    have hval : (c :: t).foldl (fun a c => 10 * a + digitToNat c) 0 = natVal (c :: t) := rfl
    have hgo : acc * 10 ^ (c :: t).length + natVal (c :: t) =
        (acc * 10 + digitToNat c) * 10 ^ t.length + natVal t := by
      rw [natVal_cons, List.length_cons, pow_succ]
      ring
    constructor
    · intro h
      unfold parseBoundedIntLoop
      rw [hc]
      simp only [Bool.not_true, Bool.false_eq_true, if_false]
      by_cases hbound : acc > (max - digitToNat c) / 10
      · simp [hbound]
      · simp only [if_neg hbound]
        push_neg at hbound
        have hle : acc * 10 + digitToNat c ≤ max := by omega
        exact ((ih (acc * 10 + digitToNat c) ht hle).1 (by rw [hgo] at h; exact h))
    · intro h
      unfold parseBoundedIntLoop
      rw [hc]
      simp only [Bool.not_true, Bool.false_eq_true, if_false]
      rw [hgo] at h
      have hstep : acc * 10 + digitToNat c ≤ max := by
        have h1 : acc * 10 + digitToNat c ≤ (acc * 10 + digitToNat c) * 10 ^ t.length := by
          calc acc * 10 + digitToNat c = (acc * 10 + digitToNat c) * 1 := by ring
            _ ≤ (acc * 10 + digitToNat c) * 10 ^ t.length :=
              Nat.mul_le_mul_left _ hP
        omega
      have hbound : ¬ acc > (max - digitToNat c) / 10 := by omega
      simp only [if_neg hbound]
      rw [hgo]
      exact (ih (acc * 10 + digitToNat c) ht hstep).2 h

lemma parseBoundedInt_err (raw : List Char) (max : Nat) (hmax : 9 ≤ max)
    (hdig : allDigits raw) (hne : raw ≠ []) :
    (max < natVal raw → parseBoundedInt raw max = .error .tooLarge) ∧
    (natVal raw ≤ max → parseBoundedInt raw max = .ok (natVal raw)) := by
  have := parseBoundedIntLoop_spec raw max hmax 0 hdig (by omega)
  unfold parseBoundedInt
  rw [if_neg hne]
  simpa using this

/-! ## The formatter characterised through the normalised pair -/

lemma formatCanonical_eq (n : Bool) (d : List Char) (e : Int) :
    formatCanonicalJSONRPCNumericID n d e =
      (if (trimTrailingZeros d).1 = [] then .ok ['0']
       else if maxCanonicalJSONRPCIDKeyLen <
           canonicalUnsignedLen (trimTrailingZeros d).1 (e + (trimTrailingZeros d).2) then
         .error .tooLarge
       else .ok ((if n then ['-'] else []) ++
           canonicalUnsigned (trimTrailingZeros d).1 (e + (trimTrailingZeros d).2))) := by
  unfold formatCanonicalJSONRPCNumericID canonicalUnsignedLen canonicalUnsigned
  set r := (trimTrailingZeros d).1 with hr
  set ee : Int := e + (trimTrailingZeros d).2 with he
  by_cases hrnil : r = []
  · simp [hrnil]
  · simp only [if_neg hrnil]
    have hrlen : 0 < r.length := List.length_pos.mpr hrnil
    by_cases hpos : (0 : Int) ≤ ee
    · simp only [if_pos hpos]
      by_cases hc : maxCanonicalJSONRPCIDKeyLen < r.length + ee.toNat
      · rw [if_pos (show (maxCanonicalJSONRPCIDKeyLen : Int) - r.length < ee by omega),
          if_pos hc]
      · rw [if_neg (show ¬ (maxCanonicalJSONRPCIDKeyLen : Int) - r.length < ee by omega)]
        have hdead : ¬ (maxCanonicalJSONRPCIDKeyLen : Int) +
            (if n then ['-'] else ([] : List Char)).length <
            (((if n then ['-'] else ([] : List Char)) ++
              (r ++ List.replicate ee.toNat '0')).length : Int) := by
          simp only [List.length_append, List.length_replicate]
          push_cast
          omega
        rw [if_neg hdead, if_neg hc]
    · simp only [if_neg hpos]
      by_cases h1 : (maxCanonicalJSONRPCIDKeyLen : Int) < -ee
      · rw [if_pos h1]
        by_cases h2 : -ee < (r.length : Int)
        · rw [if_pos h2, if_pos (show maxCanonicalJSONRPCIDKeyLen < r.length + 1 by omega)]
        · rw [if_neg h2, if_pos (show maxCanonicalJSONRPCIDKeyLen < (-ee).toNat + 2 by omega)]
      · rw [if_neg h1]
        by_cases h2 : -ee < (r.length : Int)
        · rw [if_pos h2, if_pos h2]
          have hlt : (List.take (r.length - (-ee).toNat) r).length = r.length - (-ee).toNat := by
            rw [List.length_take]
            omega
          have hld : (List.drop (r.length - (-ee).toNat) r).length = (-ee).toNat := by
            rw [List.length_drop]
            omega
          by_cases hc : maxCanonicalJSONRPCIDKeyLen < r.length + 1
          · rw [if_pos (show (maxCanonicalJSONRPCIDKeyLen : Int) <
              (List.take (r.length - (-ee).toNat) r).length + 1 +
              (List.drop (r.length - (-ee).toNat) r).length by rw [hlt, hld]; omega)]
            rw [if_pos hc]
          · rw [if_neg (show ¬ (maxCanonicalJSONRPCIDKeyLen : Int) <
              (List.take (r.length - (-ee).toNat) r).length + 1 +
              (List.drop (r.length - (-ee).toNat) r).length by rw [hlt, hld]; omega)]
            rw [if_neg hc, if_pos h2]
            simp [List.append_assoc]
        · rw [if_neg h2, if_neg h2]
          have htn : (-ee - (r.length : Int)).toNat = (-ee).toNat - r.length := by omega
          by_cases hc : maxCanonicalJSONRPCIDKeyLen < (-ee).toNat + 2
          · rw [if_pos (show (maxCanonicalJSONRPCIDKeyLen : Int) - r.length - 2 <
              -ee - r.length by omega)]
            rw [if_pos hc]
          · rw [if_neg (show ¬ (maxCanonicalJSONRPCIDKeyLen : Int) - r.length - 2 <
              -ee - r.length by omega)]
            rw [if_neg hc, htn, if_neg h2]

lemma canonicalUnsigned_length (r : List Char) (e : Int) (hne : r ≠ []) :
    (canonicalUnsigned r e).length = canonicalUnsignedLen r e := by
  unfold canonicalUnsigned canonicalUnsignedLen
  have hrlen : 0 < r.length := List.length_pos.mpr hne
  rw [if_neg hne]
  by_cases hpos : (0 : Int) ≤ e
  · simp [hpos, List.length_append, List.length_replicate]
  · simp only [if_neg hpos]
    by_cases h2 : -e < (r.length : Int)
    · simp only [if_pos h2, List.length_append, List.length_cons, List.length_take,
        List.length_drop]
      omega
    · simp only [if_neg h2, List.length_cons, List.length_append, List.length_replicate]
      omega

/-! ## The value denoted by a canonical key -/

lemma digit_ne_dot {c : Char} (h : isASCIIDigit c = true) : c ≠ '.' := by
  intro he
  have h1 := isASCIIDigit_iff.mp h
  rw [he] at h1
  have : ('.').toNat = 46 := rfl
  omega

lemma digit_ne_dash {c : Char} (h : isASCIIDigit c = true) : c ≠ '-' := by
  intro he
  have h1 := isASCIIDigit_iff.mp h
  rw [he] at h1
  have : ('-').toNat = 45 := rfl
  omega

lemma dropWhile_nodot (l : List Char) (h : allDigits l) :
    l.dropWhile (fun c => c ≠ '.') = [] := by
  rw [List.dropWhile_eq_nil_iff]
  intro x hx
  simp [digit_ne_dot (h x hx)]

lemma takeWhile_digit_dot (a b : List Char) (h : allDigits a) :
    (a ++ '.' :: b).takeWhile (fun c => c ≠ '.') = a ∧
    (a ++ '.' :: b).dropWhile (fun c => c ≠ '.') = '.' :: b := by
  induction a with
  | nil =>
    constructor
    · rw [List.nil_append, List.takeWhile_cons_of_neg (by simp)]
    · rw [List.nil_append, List.dropWhile_cons_of_neg (by simp)]
  | cons c t ih =>
    have hc : c ≠ '.' := digit_ne_dot (h c (by simp))
    obtain ⟨ih1, ih2⟩ := ih (fun x hx => h x (by simp [hx]))
    constructor
    · rw [List.cons_append, List.takeWhile_cons_of_pos (by simp [hc]), ih1]
    · rw [List.cons_append, List.dropWhile_cons_of_pos (by simp [hc]), ih2]

lemma decValUnsigned_digits (l : List Char) (h : allDigits l) :
    decValUnsigned l = natVal l := by
  unfold decValUnsigned
  rw [dropWhile_nodot l h]

lemma decValUnsigned_split (a b : List Char) (ha : allDigits a) :
    decValUnsigned (a ++ '.' :: b) =
      (natVal a : ℚ) + (natVal b : ℚ) / (10 : ℚ) ^ b.length := by
  obtain ⟨h1, h2⟩ := takeWhile_digit_dot a b ha
  unfold decValUnsigned
  rw [h2, h1]

lemma decValUnsigned_canonical (r : List Char) (e : Int) (h : allDigits r) :
    decValUnsigned (canonicalUnsigned r e) = (natVal r : ℚ) * (10 : ℚ) ^ e := by
  unfold canonicalUnsigned
  by_cases hpos : (0 : Int) ≤ e
  · rw [if_pos hpos]
    have hall : allDigits (r ++ List.replicate e.toNat '0') := by
      intro c hc
      rcases List.mem_append.mp hc with h1 | h2
      · exact h c h1
      · rw [List.eq_of_mem_replicate h2]; decide
    rw [decValUnsigned_digits _ hall, natVal_append, natVal_replicate_zero,
      List.length_replicate]
    push_cast
    rw [show e = ((e.toNat : Nat) : Int) from (Int.toNat_of_nonneg hpos).symm, zpow_natCast]
    norm_cast
  · rw [if_neg hpos]
    have h10 : (10 : ℚ) ^ e = ((10 : ℚ) ^ (-e).toNat)⁻¹ := by
      rw [← zpow_natCast (10 : ℚ) (-e).toNat, ← zpow_neg]
      congr 1
      omega
    have hp : ((10 : ℚ) ^ (-e).toNat) ≠ 0 := by positivity
    by_cases h2 : -e < (r.length : Int)
    · rw [if_pos h2]
      have htake : allDigits (r.take (r.length - (-e).toNat)) :=
        fun c hc => h c (List.take_subset _ _ hc)
      rw [decValUnsigned_split _ _ htake]
      have hdl : (r.drop (r.length - (-e).toNat)).length = (-e).toNat := by
        rw [List.length_drop]
        omega
      have hsplit : (natVal r : ℚ) =
          natVal (r.take (r.length - (-e).toNat)) * (10 : ℚ) ^ (-e).toNat +
            natVal (r.drop (r.length - (-e).toNat)) := by
        conv_lhs => rw [← List.take_append_drop (r.length - (-e).toNat) r]
        rw [natVal_append, hdl]
        push_cast
        ring
      rw [hdl, h10, hsplit]
      field_simp
    · rw [if_neg h2]
      have hz : allDigits (['0'] : List Char) := by intro c hc; simp at hc; rw [hc]; decide
      rw [show ('0' : Char) :: '.' :: (List.replicate ((-e).toNat - r.length) '0' ++ r) =
        ['0'] ++ '.' :: (List.replicate ((-e).toNat - r.length) '0' ++ r) from rfl]
      rw [decValUnsigned_split _ _ hz]
      rw [natVal_append, natVal_replicate_zero, List.length_append, List.length_replicate]
      have hlen : (-e).toNat - r.length + r.length = (-e).toNat := by omega
      rw [hlen, h10]
      have h0 : natVal (['0'] : List Char) = 0 := rfl
      rw [h0]
      push_cast
      field_simp

lemma decVal_cons_dash (l : List Char) : decVal ('-' :: l) = -(decValUnsigned l) := rfl

lemma decVal_not_dash (l : List Char) (h : l.head? ≠ some '-') :
    decVal l = decValUnsigned l := by
  cases l with
  | nil => rfl
  | cons c t =>
    have hc : c ≠ '-' := by simpa using h
    unfold decVal
    split
    · rename_i heq
      injection heq with h1 h2
      exact absurd h1 hc
    · rfl

lemma canonicalUnsigned_head (r : List Char) (e : Int) (h : allDigits r) (hne : r ≠ []) :
    (canonicalUnsigned r e).head? ≠ some '-' := by
  unfold canonicalUnsigned
  have hrlen : 0 < r.length := List.length_pos.mpr hne
  by_cases hpos : (0 : Int) ≤ e
  · rw [if_pos hpos]
    cases r with
    | nil => exact absurd rfl hne
    | cons c t =>
      have : ((c :: t) ++ List.replicate e.toNat '0').head? = some c := rfl
      rw [this]
      simpa using digit_ne_dash (h c (by simp))
  · rw [if_neg hpos]
    by_cases h2 : -e < (r.length : Int)
    · rw [if_pos h2]
      have hk : 0 < r.length - (-e).toNat := by omega
      cases r with
      | nil => exact absurd rfl hne
      | cons c t =>
        obtain ⟨m, hm⟩ : ∃ m, (c :: t).length - (-e).toNat = m + 1 :=
          ⟨(c :: t).length - (-e).toNat - 1, by omega⟩
        rw [hm, List.take_succ_cons]
        have : ((c :: List.take m t) ++ '.' :: List.drop (m + 1) (c :: t)).head? = some c := rfl
        rw [this]
        simpa using digit_ne_dash (h c (by simp))
    · rw [if_neg h2]
      simp

lemma decVal_signed (n : Bool) (u : List Char) (hu : u.head? ≠ some '-') :
    decVal ((if n then ['-'] else []) ++ u) =
      (if n then (-1 : ℚ) else 1) * decValUnsigned u := by
  cases n with
  | true =>
    rw [if_pos rfl, if_pos rfl]
    show decVal ('-' :: u) = -1 * decValUnsigned u
    rw [decVal_cons_dash]
    ring
  | false =>
    rw [if_neg (by simp), if_neg (by simp), List.nil_append, decVal_not_dash u hu]
    ring

/-- The key produced by the formatter denotes exactly the rational of its
input triple. -/
lemma format_ok_value (n : Bool) (d : List Char) (e : Int) (key : List Char)
    (hd : allDigits d)
    (hfmt : formatCanonicalJSONRPCNumericID n d e = .ok key) :
    decVal key = ratValue n d e := by
  rw [formatCanonical_eq] at hfmt
  have hval : (natVal d : ℚ) =
      (natVal (trimTrailingZeros d).1 : ℚ) * (10 : ℚ) ^ ((trimTrailingZeros d).2 : Nat) := by
    rw [trimTrailingZeros_natVal d]
    push_cast
    ring
  by_cases hrnil : (trimTrailingZeros d).1 = []
  · rw [if_pos hrnil] at hfmt
    injection hfmt with hkey
    rw [← hkey]
    have h0 : decVal (['0'] : List Char) = 0 := by
      rw [decVal_not_dash _ (by simp), decValUnsigned_digits _ (by intro c hc; simp at hc; rw [hc]; decide)]
      rfl
    rw [h0]
    unfold ratValue
    rw [hval, hrnil]
    show (0 : ℚ) = _ * ((natVal [] : ℚ) * _) * _
    rw [natVal_nil]
    push_cast
    ring
  · rw [if_neg hrnil] at hfmt
    by_cases hbig : maxCanonicalJSONRPCIDKeyLen <
        canonicalUnsignedLen (trimTrailingZeros d).1 (e + (trimTrailingZeros d).2)
    · rw [if_pos hbig] at hfmt
      cases hfmt
    · rw [if_neg hbig] at hfmt
      injection hfmt with hkey
      rw [← hkey]
      have hdr : allDigits (trimTrailingZeros d).1 := trimTrailingZeros_allDigits d hd
      rw [decVal_signed n _ (canonicalUnsigned_head _ _ hdr hrnil),
        decValUnsigned_canonical _ _ hdr]
      unfold ratValue
      rw [hval]
      rw [zpow_add₀ (by norm_num : (10 : ℚ) ≠ 0) e ((trimTrailingZeros d).2 : Int),
        zpow_natCast]
      ring

/-- A positive integer not divisible by ten, scaled by a power of ten, has a
unique such representation. -/
lemma pow_ten_mul_inj {m₁ m₂ : Nat} (h₁ : 0 < m₁) (h₂ : 0 < m₂)
    (hd₁ : ¬ 10 ∣ m₁) (hd₂ : ¬ 10 ∣ m₂) {e₁ e₂ : Int}
    (h : (m₁ : ℚ) * (10 : ℚ) ^ e₁ = (m₂ : ℚ) * (10 : ℚ) ^ e₂) :
    m₁ = m₂ ∧ e₁ = e₂ := by
  have key : ∀ (a b : Nat) (f g : Int), 0 < a → 0 < b → ¬ 10 ∣ a → f ≤ g →
      (a : ℚ) * (10 : ℚ) ^ f = (b : ℚ) * (10 : ℚ) ^ g → a = b * 10 ^ (g - f).toNat := by
    intro a b f g ha hb hda hfg hab
    have hz : ((10 : ℚ) ^ f) ≠ 0 := by
      apply zpow_ne_zero
      norm_num
    have : (a : ℚ) = (b : ℚ) * (10 : ℚ) ^ (g - f) := by
      rw [zpow_sub₀ (by norm_num : (10 : ℚ) ≠ 0)]
      field_simp
      exact hab
    have hcast : (a : ℚ) = ((b * 10 ^ (g - f).toNat : Nat) : ℚ) := by
      rw [this]
      push_cast
      congr 1
      rw [← zpow_natCast (10 : ℚ) (g - f).toNat]
      congr 1
      omega
    exact_mod_cast hcast
  rcases le_total e₁ e₂ with hle | hle
  · have := key m₁ m₂ e₁ e₂ h₁ h₂ hd₁ hle h
    by_cases hk : (e₂ - e₁).toNat = 0
    · rw [hk, pow_zero, mul_one] at this
      exact ⟨this, by omega⟩
    · exfalso
      apply hd₁
      rw [this]
      obtain ⟨j, hj⟩ : ∃ j, (e₂ - e₁).toNat = j + 1 := ⟨(e₂ - e₁).toNat - 1, by omega⟩
      rw [hj, pow_succ]
      exact ⟨m₂ * 10 ^ j, by ring⟩
  · have := key m₂ m₁ e₂ e₁ h₂ h₁ hd₂ hle h.symm
    by_cases hk : (e₁ - e₂).toNat = 0
    · rw [hk, pow_zero, mul_one] at this
      exact ⟨this.symm, by omega⟩
    · exfalso
      apply hd₂
      rw [this]
      obtain ⟨j, hj⟩ : ∃ j, (e₁ - e₂).toNat = j + 1 := ⟨(e₁ - e₂).toNat - 1, by omega⟩
      rw [hj, pow_succ]
      exact ⟨m₁ * 10 ^ j, by ring⟩

lemma natVal_trim_pos (d : List Char) (hd : allDigits d) (hz : d.head? ≠ some '0')
    (hne : (trimTrailingZeros d).1 ≠ []) : 0 < natVal (trimTrailingZeros d).1 := by
  rcases hr : (trimTrailingZeros d).1 with _ | ⟨c, rest⟩
  · exact absurd hr hne
  · have hhead := trimTrailingZeros_head d c rest hr
    have hcz : c ≠ '0' := by
      intro he
      rw [he] at hhead
      exact hz hhead
    have hall := trimTrailingZeros_allDigits d hd
    rw [hr] at hall
    exact natVal_pos c rest (hall c (by simp)) hcz

lemma trim_head_ne_zero (d : List Char) (hz : d.head? ≠ some '0') :
    (trimTrailingZeros d).1.head? ≠ some '0' := by
  rcases hr : (trimTrailingZeros d).1 with _ | ⟨c, rest⟩
  · simp
  · have hhead := trimTrailingZeros_head d c rest hr
    simp only [List.head?_cons, ne_eq, Option.some.injEq]
    intro he
    rw [he] at hhead
    exact hz hhead

lemma ratValue_trim (n : Bool) (d : List Char) (e : Int) :
    ratValue n d e =
      ratValue n (trimTrailingZeros d).1 (e + (trimTrailingZeros d).2) := by
  unfold ratValue
  rw [trimTrailingZeros_natVal d]
  rw [zpow_add₀ (by norm_num : (10 : ℚ) ≠ 0) e ((trimTrailingZeros d).2 : Int),
    zpow_natCast]
  push_cast
  ring

/-- Parsed numeric ids with equal rational values format to syntactically
identical results (key or error alike). -/
lemma format_eq_of_value_eq (n₁ n₂ : Bool) (d₁ d₂ : List Char) (e₁ e₂ : Int)
    (hd₁ : allDigits d₁) (hz₁ : d₁.head? ≠ some '0')
    (hd₂ : allDigits d₂) (hz₂ : d₂.head? ≠ some '0')
    (hv : ratValue n₁ d₁ e₁ = ratValue n₂ d₂ e₂) :
    formatCanonicalJSONRPCNumericID n₁ d₁ e₁ = formatCanonicalJSONRPCNumericID n₂ d₂ e₂ := by
  rw [formatCanonical_eq, formatCanonical_eq]
  rw [ratValue_trim n₁ d₁ e₁, ratValue_trim n₂ d₂ e₂] at hv
  set r₁ := (trimTrailingZeros d₁).1 with hrdef₁
  set r₂ := (trimTrailingZeros d₂).1 with hrdef₂
  set ee₁ : Int := e₁ + (trimTrailingZeros d₁).2 with heedef₁
  set ee₂ : Int := e₂ + (trimTrailingZeros d₂).2 with heedef₂
  by_cases h1 : r₁ = [] <;> by_cases h2 : r₂ = []
  · rw [if_pos h1, if_pos h2]
  · exfalso
    have hm₂ : 0 < natVal r₂ := natVal_trim_pos d₂ hd₂ hz₂ h2
    have hz10 : ((10 : ℚ) ^ ee₂) ≠ 0 := zpow_ne_zero _ (by norm_num)
    unfold ratValue at hv
    rw [h1, natVal_nil] at hv
    have : ((natVal r₂ : ℚ)) * (10 : ℚ) ^ ee₂ ≠ 0 := by
      apply mul_ne_zero _ hz10
      exact_mod_cast hm₂.ne.symm
    cases n₁ <;> cases n₂ <;> simp at hv <;>
      rcases hv with hv | hv <;> first
        | exact this (by rw [hv]; ring)
        | exact absurd hv (by exact_mod_cast hm₂.ne.symm)
        | exact absurd hv hz10
  · exfalso
    have hm₁ : 0 < natVal r₁ := natVal_trim_pos d₁ hd₁ hz₁ h1
    have hz10 : ((10 : ℚ) ^ ee₁) ≠ 0 := zpow_ne_zero _ (by norm_num)
    unfold ratValue at hv
    rw [h2, natVal_nil] at hv
    have : ((natVal r₁ : ℚ)) * (10 : ℚ) ^ ee₁ ≠ 0 := by
      apply mul_ne_zero _ hz10
      exact_mod_cast hm₁.ne.symm
    cases n₁ <;> cases n₂ <;> simp at hv <;>
      rcases hv with hv | hv <;> first
        | exact this (by rw [hv]; ring)
        | exact absurd hv (by exact_mod_cast hm₁.ne.symm)
        | exact absurd hv hz10
  · rw [if_neg h1, if_neg h2]
    have hm₁ : 0 < natVal r₁ := natVal_trim_pos d₁ hd₁ hz₁ h1
    have hm₂ : 0 < natVal r₂ := natVal_trim_pos d₂ hd₂ hz₂ h2
    have hnd₁ : ¬ 10 ∣ natVal r₁ := trimTrailingZeros_not_dvd d₁ hd₁ h1
    have hnd₂ : ¬ 10 ∣ natVal r₂ := trimTrailingZeros_not_dvd d₂ hd₂ h2
    have hP₁ : (0 : ℚ) < (natVal r₁ : ℚ) * (10 : ℚ) ^ ee₁ := by
      apply mul_pos _ (zpow_pos (by norm_num) _)
      exact_mod_cast hm₁
    have hP₂ : (0 : ℚ) < (natVal r₂ : ℚ) * (10 : ℚ) ^ ee₂ := by
      apply mul_pos _ (zpow_pos (by norm_num) _)
      exact_mod_cast hm₂
    unfold ratValue at hv
    have hsgn : n₁ = n₂ := by
      cases n₁ <;> cases n₂ <;> simp at hv ⊢ <;> nlinarith [hP₁, hP₂]
    subst hsgn
    have hq : (natVal r₁ : ℚ) * (10 : ℚ) ^ ee₁ = (natVal r₂ : ℚ) * (10 : ℚ) ^ ee₂ := by
      cases n₁ <;> simp at hv <;> nlinarith [hv]
    obtain ⟨hm, he⟩ := pow_ten_mul_inj hm₁ hm₂ hnd₁ hnd₂ hq
    have hr : r₁ = r₂ :=
      natVal_inj r₁ r₂ (trimTrailingZeros_allDigits d₁ hd₁)
        (trimTrailingZeros_allDigits d₂ hd₂)
        (trim_head_ne_zero d₁ hz₁) (trim_head_ne_zero d₂ hz₂) hm
    rw [hr, he]

/-! ## Soundness of the parsing stage -/

lemma parseBoundedIntLoop_ok (raw : List Char) :
    ∀ {max acc v : Nat}, parseBoundedIntLoop raw max acc = .ok v →
      v = acc * 10 ^ raw.length + natVal raw := by
  induction raw with
  | nil =>
    intro max acc v h
    injection h with h1
    rw [← h1, natVal_nil]
    simp
  | cons c t ih =>
    intro max acc v h
    unfold parseBoundedIntLoop at h
    by_cases hc : isASCIIDigit c
    · rw [hc] at h
      simp only [Bool.not_true, Bool.false_eq_true, if_false] at h
      by_cases hb : acc > (max - digitToNat c) / 10
      · rw [if_pos hb] at h
        cases h
      · rw [if_neg hb] at h
        rw [ih h, natVal_cons, List.length_cons, pow_succ]
        ring
    · rw [Bool.eq_false_iff.mpr hc] at h
      simp at h

lemma parseBoundedInt_ok_val {raw : List Char} {max v : Nat}
    (h : parseBoundedInt raw max = .ok v) : v = natVal raw := by
  unfold parseBoundedInt at h
  by_cases hr : raw = []
  · rw [if_pos hr] at h
    cases h
  · rw [if_neg hr] at h
    have := parseBoundedIntLoop_ok raw h
    simpa using this

lemma allDigits_dropWhile (l : List Char) (p : Char → Bool) (h : allDigits l) :
    allDigits (l.dropWhile p) := by
  induction l with
  | nil => exact h
  | cons c t ih =>
    by_cases hp : p c
    · rw [List.dropWhile_cons_of_pos hp]
      exact ih (fun x hx => h x (by simp [hx]))
    · rw [List.dropWhile_cons_of_neg hp]
      exact h

lemma allDigits_append {a b : List Char} (ha : allDigits a) (hb : allDigits b) :
    allDigits (a ++ b) := by
  intro c hc
  rcases List.mem_append.mp hc with h | h
  · exact ha c h
  · exact hb c h

lemma dropWhile_head_not (p : Char → Bool) (l : List Char) {c : Char} {rest : List Char}
    (h : l.dropWhile p = c :: rest) : p c = false := by
  induction l with
  | nil => cases h
  | cons a t ih =>
    by_cases hp : p a
    · rw [List.dropWhile_cons_of_pos hp] at h
      exact ih h
    · rw [List.dropWhile_cons_of_neg hp] at h
      injection h with h1 _
      rw [← h1]
      exact Bool.eq_false_iff.mpr hp

lemma scanIntDigits_digits {l i rest : List Char}
    (h : scanIntDigits l = some (i, rest)) : allDigits i := by
  unfold scanIntDigits at h
  split at h
  · cases h
  · rename_i c t
    split at h
    · split at h
      · split at h
        · cases h
        · injection h with h1
          injection h1 with h2 _
          rw [← h2]
          intro x hx
          simp at hx
          rw [hx]
          decide
      · injection h with h1
        injection h1 with h2 _
        rw [← h2]
        intro x hx
        simp at hx
        rw [hx]
        decide
    · split at h
      · injection h with h1
        injection h1 with h2 _
        rw [← h2]
        intro x hx
        exact List.mem_takeWhile_imp hx
      · cases h

lemma scanFrac_digits {l f rest : List Char}
    (h : scanFrac l = some (f, rest)) : allDigits f := by
  unfold scanFrac at h
  split at h
  · split at h
    · cases h
    · injection h with h1
      injection h1 with h2 _
      rw [← h2]
      intro x hx
      exact List.mem_takeWhile_imp hx
  · injection h with h1
    injection h1 with h2 _
    rw [← h2]
    intro x hx
    simp at hx

lemma scanExpDigits_digits {sign es : Int} {body ed rest : List Char}
    (h : scanExpDigits sign body = some (es, ed, rest)) : allDigits ed := by
  unfold scanExpDigits at h
  split at h
  · cases h
  · split at h
    · cases h
    · injection h with h1
      injection h1 with _ h2
      injection h2 with h3 _
      rw [← h3]
      intro x hx
      exact List.mem_takeWhile_imp hx

lemma scanExpPart_digits {l : List Char} {es : Int} {ed rest : List Char}
    (h : scanExpPart l = some (es, ed, rest)) : allDigits ed := by
  unfold scanExpPart at h
  split at h
  · injection h with h1
    injection h1 with _ h2
    injection h2 with h3 _
    rw [← h3]
    intro x hx
    simp at hx
  · split at h
    · split at h
      · cases h
      · split at h
        · exact scanExpDigits_digits h
        · exact scanExpDigits_digits h
    · injection h with h1
      injection h1 with _ h2
      injection h2 with h3 _
      rw [← h3]
      intro x hx
      simp at hx

/-- A successful canonicalisation decomposes into a successful parse and a
successful format, the parsed digit string is well formed, and the input
literal denotes exactly the parsed rational. -/
lemma canonical_ok_value {lit key : List Char}
    (h : canonicalJSONRPCNumericIDKey lit = .ok key) :
    ∃ n d e, parseJSONRPCNumericID (trimSpace lit) = .ok (n, d, e) ∧
      formatCanonicalJSONRPCNumericID n d e = .ok key ∧
      allDigits d ∧ d.head? ≠ some '0' ∧
      numberLiteralValue lit = some (ratValue n d e) := by
  unfold canonicalJSONRPCNumericIDKey at h
  by_cases hemp : trimSpace lit = []
  · rw [if_pos hemp] at h
    cases h
  · rw [if_neg hemp] at h
    cases hp : parseJSONRPCNumericID (trimSpace lit) with
    | error er => rw [hp] at h; cases h
    | ok t =>
      obtain ⟨n, d, e⟩ := t
      rw [hp] at h
      refine ⟨n, d, e, rfl, h, ?_⟩
      clear h
      unfold parseJSONRPCNumericID at hp
      cases hs : scanSign (trimSpace lit) with
      | none => rw [hs] at hp; cases hp
      | some p1 =>
        obtain ⟨neg, a1⟩ := p1
        rw [hs] at hp
        dsimp only at hp
        cases hi : scanIntDigits a1 with
        | none => rw [hi] at hp; cases hp
        | some p2 =>
          obtain ⟨iD, a2⟩ := p2
          rw [hi] at hp
          dsimp only at hp
          cases hf : scanFrac a2 with
          | none => rw [hf] at hp; cases hp
          | some p3 =>
            obtain ⟨fD, a3⟩ := p3
            rw [hf] at hp
            dsimp only at hp
            cases hx : scanExpPart a3 with
            | none => rw [hx] at hp; cases hp
            | some p4 =>
              obtain ⟨es, eD, rest⟩ := p4
              rw [hx] at hp
              dsimp only at hp
              have hiD : allDigits iD := scanIntDigits_digits hi
              have hfD : allDigits fD := scanFrac_digits hf
              have hvalue : ∀ (ex : Int), ex = es * (natVal eD : Int) →
                  (if rest ≠ [] then (.error .invalidNumericID :
                      Except CanonErr (Bool × List Char × Int))
                   else
                     if (iD ++ fD).dropWhile (fun c => c = '0') = [] then .ok (false, [], 0)
                     else if maxCanonicalJSONRPCIDKeyLen <
                         ((iD ++ fD).dropWhile (fun c => c = '0')).length then .error .tooLarge
                     else .ok (neg, (iD ++ fD).dropWhile (fun c => c = '0'),
                       ex - fD.length)) = .ok (n, d, e) →
                  allDigits d ∧ d.head? ≠ some '0' ∧
                    numberLiteralValue lit = some (ratValue n d e) := by
                intro ex hex hrest
                by_cases hr : rest = []
                · rw [if_neg (by simp [hr])] at hrest
                  have hnlv : numberLiteralValue lit =
                      some (ratValue neg (iD ++ fD)
                        (es * (natVal eD : Int) - fD.length)) := by
                    unfold numberLiteralValue
                    rw [hs]
                    dsimp only
                    rw [hi]
                    dsimp only
                    rw [hf]
                    dsimp only
                    rw [hx]
                    dsimp only
                    rw [if_pos hr]
                  by_cases hdig : (iD ++ fD).dropWhile (fun c => c = '0') = []
                  · rw [if_pos hdig] at hrest
                    injection hrest with hrest
                    injection hrest with h1 hrest
                    injection hrest with h2 h3
                    refine ⟨?_, ?_, ?_⟩
                    · rw [← h2]; intro x hx2; cases hx2
                    · rw [← h2]; simp
                    · rw [hnlv, ← h1, ← h2, ← h3]
                      have hz : natVal (iD ++ fD) = 0 := by
                        rw [← natVal_dropWhile_zero (iD ++ fD), hdig, natVal_nil]
                      unfold ratValue
                      rw [hz, natVal_nil]
                      norm_num
                  · rw [if_neg hdig] at hrest
                    by_cases hlen : maxCanonicalJSONRPCIDKeyLen <
                        ((iD ++ fD).dropWhile (fun c => c = '0')).length
                    · rw [if_pos hlen] at hrest
                      cases hrest
                    · rw [if_neg hlen] at hrest
                      injection hrest with hrest
                      injection hrest with h1 hrest
                      injection hrest with h2 h3
                      refine ⟨?_, ?_, ?_⟩
                      · rw [← h2]
                        exact allDigits_dropWhile _ _ (allDigits_append hiD hfD)
                      · rw [← h2]
                        cases hd2 : (iD ++ fD).dropWhile (fun c => c = '0') with
                        | nil => simp
                        | cons c0 t0 =>
                          have := dropWhile_head_not _ _ hd2
                          simp only [List.head?_cons, ne_eq, Option.some.injEq]
                          intro hh
                          rw [hh] at this
                          simp at this
                      · rw [hnlv, ← h1, ← h2, ← h3, ← hex]
                        unfold ratValue
                        rw [← natVal_dropWhile_zero (iD ++ fD)]
                · rw [if_pos (by simp [hr])] at hrest
                  cases hrest
              by_cases hed : eD = []
              · rw [if_pos hed] at hp
                rw [Except.bind] at hp
                exact hvalue 0 (by rw [hed]; rw [natVal_nil]; ring) hp
              · rw [if_neg hed] at hp
                cases hpb : parseBoundedInt eD maxCanonicalJSONRPCIDAbsExp10 with
                | error er2 =>
                  rw [hpb] at hp
                  cases hp
                | ok m =>
                  rw [hpb] at hp
                  simp only [Except.map, Except.bind] at hp
                  exact hvalue (es * Int.ofNat m)
                    (by rw [parseBoundedInt_ok_val hpb]; rfl) hp

lemma scanIntDigits_head {c : Char} {t : List Char} {p : List Char × List Char}
    (h : scanIntDigits (c :: t) = some p) : isASCIIDigit c = true := by
  unfold scanIntDigits at h
  split at h
  · cases h
  · rename_i c2 rest heq
    injection heq with hc2 ht2
    subst hc2
    subst ht2
    split at h
    · rename_i h0
      rw [h0]
      decide
    · split at h
      · rename_i h0 h19
        rw [Bool.and_eq_true, decide_eq_true_eq, decide_eq_true_eq] at h19
        rw [isASCIIDigit_iff]
        have hle : 49 ≤ c.toNat ∧ c.toNat ≤ 57 := by
          rw [Char.le_def, Char.le_def] at h19
          exact h19
        omega
      · cases h

/-- On a number literal the generic canonicaliser takes the numeric path. -/
lemma canonicalJSONRPCIDKey_of_literal {a : List Char} {q : ℚ}
    (h : numberLiteralValue a = some q) :
    canonicalJSONRPCIDKey a = canonicalJSONRPCNumericIDKey a := by
  unfold numberLiteralValue at h
  unfold canonicalJSONRPCIDKey
  cases ht : trimSpace a with
  | nil =>
    rw [ht] at h
    simp [scanSign] at h
  | cons c t =>
    rw [ht] at h
    cases hs : scanSign (c :: t) with
    | none =>
      rw [hs] at h
      dsimp only at h
      cases h
    | some p =>
      obtain ⟨neg, a1⟩ := p
      rw [hs] at h
      dsimp only at h
      cases hi : scanIntDigits a1 with
      | none =>
        rw [hi] at h
        dsimp only at h
        cases h
      | some p2 =>
        have hc : c = '-' ∨ isASCIIDigit c = true := by
          unfold scanSign at hs
          split at hs
          · cases hs
          · rename_i rest heq
            injection heq with h1 _
            left
            exact h1
          · rename_i l hne
            injection hs with hs2
            injection hs2 with _ h2
            right
            rw [← h2] at hi
            exact scanIntDigits_head hi
        have hdq : c ≠ '"' := by
          rcases hc with hc | hc
          · rw [hc]; decide
          · intro he
            rw [he] at hc
            have := isASCIIDigit_iff.mp hc
            have h34 : ('"').toNat = 34 := rfl
            omega
        have hnn : c :: t ≠ ['n', 'u', 'l', 'l'] := by
          intro he
          injection he with h1 _
          rcases hc with hc | hc
          · rw [h1] at hc; cases hc
          · rw [h1] at hc
            have := isASCIIDigit_iff.mp hc
            have h110 : ('n').toNat = 110 := rfl
            omega
        split
        · rename_i heq
          cases heq
        · rename_i rest heq
          exfalso
          injection heq with h1 _
          exact hdq h1
        · rename_i c2 t2 heq
          injection heq with h1 h2
          subst h1
          subst h2
          rw [if_neg hnn]
          rw [if_pos (by
            rcases hc with hc | hc
            · rw [hc]; decide
            · rw [hc]; simp)]

/-- Successfully canonicalised number-literal ids receive equal keys exactly
when they denote equal rationals.  Shared backbone of the canonical-id
claims. -/
lemma canonicalKey_eq_iff_value_eq (a b ka kb : List Char) (qa qb : ℚ)
    (hva : numberLiteralValue a = some qa) (hvb : numberLiteralValue b = some qb)
    (ha : canonicalJSONRPCIDKey a = .ok ka) (hb : canonicalJSONRPCIDKey b = .ok kb) :
    ka = kb ↔ qa = qb := by
  rw [canonicalJSONRPCIDKey_of_literal hva] at ha
  rw [canonicalJSONRPCIDKey_of_literal hvb] at hb
  obtain ⟨n₁, d₁, e₁, hp₁, hf₁, hd₁, hz₁, hv₁⟩ := canonical_ok_value ha
  obtain ⟨n₂, d₂, e₂, hp₂, hf₂, hd₂, hz₂, hv₂⟩ := canonical_ok_value hb
  rw [hva] at hv₁
  rw [hvb] at hv₂
  injection hv₁ with hv₁
  injection hv₂ with hv₂
  constructor
  · intro hk
    have h1 := format_ok_value n₁ d₁ e₁ ka hd₁ hf₁
    have h2 := format_ok_value n₂ d₂ e₂ kb hd₂ hf₂
    rw [hv₁, hv₂, ← h1, ← h2, hk]
  · intro hq
    rw [hv₁, hv₂] at hq
    have := format_eq_of_value_eq n₁ n₂ d₁ d₂ e₁ e₂ hd₁ hz₁ hd₂ hz₂ hq
    rw [hf₁, hf₂] at this
    injection this

/-- C1: for number literals the canonical id key identifies exactly the
literals denoting the same rational.  Two successfully canonicalised number
literals receive the same key if and only if they denote the same rational
value; `9007199254740992` and `9007199254740993` therefore receive distinct
keys, and `1`, `1.0`, `1e0` the same key.  The key is a pure function of
the JSON numeric value. -/
theorem c1_canonical_id_equivalence (a b ka kb : List Char) (qa qb : ℚ)
    (hva : numberLiteralValue a = some qa) (hvb : numberLiteralValue b = some qb)
    (ha : canonicalJSONRPCIDKey a = .ok ka) (hb : canonicalJSONRPCIDKey b = .ok kb) :
    ka = kb ↔ qa = qb :=
  canonicalKey_eq_iff_value_eq a b ka kb qa qb hva hvb ha hb

/-- Witness for C1: instantiated at the literals `1.0` and `1e0`, whose keys
are both `1` and whose values are both the rational 1. -/
theorem c1_canonical_id_equivalence_witness :
    numberLiteralValue "1.0".data = some (ratValue false ['1', '0'] (-1)) ∧
    numberLiteralValue "1e0".data = some (ratValue false ['1'] 0) ∧
    canonicalJSONRPCIDKey "1.0".data = .ok "1".data ∧
    canonicalJSONRPCIDKey "1e0".data = .ok "1".data ∧
    (("1".data : List Char) = "1".data ↔
      ratValue false ['1', '0'] (-1) = ratValue false ['1'] 0) :=
  ⟨by rfl, by rfl, by decide, by decide,
    c1_canonical_id_equivalence "1.0".data "1e0".data "1".data "1".data
      (ratValue false ['1', '0'] (-1)) (ratValue false ['1'] 0)
      (by rfl) (by rfl) (by decide) (by decide)⟩

/-! ## Characterisation of the too-large error (claim C4) -/

/-- Shape of a well-formed JSON number literal: the composition of the four
scanning steps with no trailing input, reporting sign, integer digits,
fraction digits, exponent sign and exponent digits.  This is the
specification-side decomposition used to state exactly when the
canonicaliser reports `too large`. -/
def scanNumberShape (raw : List Char) :
    Option (Bool × List Char × List Char × Int × List Char) :=
  match scanSign raw with
  | none => none
  | some (negative, a1) =>
    match scanIntDigits a1 with
    | none => none
    | some (intDigits, a2) =>
      match scanFrac a2 with
      | none => none
      | some (fracDigits, a3) =>
        match scanExpPart a3 with
        | none => none
        | some (expSign, expDigits, rest) =>
          if rest = [] then some (negative, intDigits, fracDigits, expSign, expDigits)
          else none

/-- The normalised significant digits of a literal shape: integer plus
fraction digits with leading zeros stripped. -/
def shapeDigits (intDigits fracDigits : List Char) : List Char :=
  (intDigits ++ fracDigits).dropWhile (fun c => c = '0')

/-- The canonical exponent of a literal shape after trailing-zero
normalisation. -/
def shapeExp (intDigits fracDigits : List Char) (expSign : Int) (expDigits : List Char) :
    Int :=
  (expSign * (natVal expDigits : Int) - fracDigits.length) +
    (trimTrailingZeros (shapeDigits intDigits fracDigits)).2

lemma scanSign_nil : scanSign ([] : List Char) = none := rfl

lemma dropWhile_zero_head (l : List Char) :
    (l.dropWhile (fun c => c = '0')).head? ≠ some '0' := by
  cases hD : l.dropWhile (fun c => c = '0') with
  | nil => simp
  | cons c t =>
    have := dropWhile_head_not _ _ hD
    simp only [List.head?_cons, ne_eq, Option.some.injEq]
    intro hh
    rw [hh] at this
    simp at this

lemma trim_ne_nil_of_ne_nil {D : List Char} (hDdig : allDigits D)
    (hDz : D.head? ≠ some '0') (hDnil : D ≠ []) : (trimTrailingZeros D).1 ≠ [] := by
  intro he
  cases hD2 : D with
  | nil => exact hDnil hD2
  | cons c0 t0 =>
    have hpos : 0 < natVal D := by
      rw [hD2]
      apply natVal_pos
      · exact (hD2 ▸ hDdig) c0 (by simp)
      · have := hD2 ▸ hDz
        simpa using this
    have := trimTrailingZeros_natVal D
    rw [he, natVal_nil] at this
    simp at this
    omega

lemma canonicalNumeric_of_parse {raw : List Char} (hne : trimSpace raw ≠ []) :
    canonicalJSONRPCNumericIDKey raw =
      match parseJSONRPCNumericID (trimSpace raw) with
      | .error e => .error e
      | .ok (negative, digits, exp10) =>
        formatCanonicalJSONRPCNumericID negative digits exp10 := by
  unfold canonicalJSONRPCNumericIDKey
  rw [if_neg hne]

/-- C4 (amended): on a well-formed number literal the canonicaliser fails
with `too large` exactly when the written exponent magnitude exceeds 4096,
or the significant digit count after leading-zero stripping exceeds 4096,
or the canonical key excluding any sign would exceed 4096 characters; within
those limits it succeeds, and the key length is the unsigned canonical
length plus one more character for the sign of a negative id (the sign does
not count toward the 4096-character limit). -/
theorem c4_too_large_characterisation (raw : List Char) (neg : Bool)
    (iD fD : List Char) (es : Int) (eD : List Char)
    (hshape : scanNumberShape (trimSpace raw) = some (neg, iD, fD, es, eD)) :
    (canonicalJSONRPCNumericIDKey raw = .error .tooLarge ↔
      (maxCanonicalJSONRPCIDAbsExp10 < natVal eD ∨
       maxCanonicalJSONRPCIDKeyLen < (shapeDigits iD fD).length ∨
       maxCanonicalJSONRPCIDKeyLen <
         canonicalUnsignedLen (trimTrailingZeros (shapeDigits iD fD)).1
           (shapeExp iD fD es eD))) ∧
    (¬ (maxCanonicalJSONRPCIDAbsExp10 < natVal eD ∨
        maxCanonicalJSONRPCIDKeyLen < (shapeDigits iD fD).length ∨
        maxCanonicalJSONRPCIDKeyLen <
          canonicalUnsignedLen (trimTrailingZeros (shapeDigits iD fD)).1
            (shapeExp iD fD es eD)) →
      ∃ key, canonicalJSONRPCNumericIDKey raw = .ok key ∧
        key.length =
          (if neg = true ∧ (trimTrailingZeros (shapeDigits iD fD)).1 ≠ [] then 1 else 0) +
            canonicalUnsignedLen (trimTrailingZeros (shapeDigits iD fD)).1
              (shapeExp iD fD es eD)) := by
  unfold scanNumberShape at hshape
  cases hs : scanSign (trimSpace raw) with
  | none => rw [hs] at hshape; cases hshape
  | some p1 =>
    obtain ⟨neg0, a1⟩ := p1
    rw [hs] at hshape
    dsimp only at hshape
    cases hi : scanIntDigits a1 with
    | none => rw [hi] at hshape; cases hshape
    | some p2 =>
      obtain ⟨iD0, a2⟩ := p2
      rw [hi] at hshape
      dsimp only at hshape
      cases hf : scanFrac a2 with
      | none => rw [hf] at hshape; cases hshape
      | some p3 =>
        obtain ⟨fD0, a3⟩ := p3
        rw [hf] at hshape
        dsimp only at hshape
        cases hx : scanExpPart a3 with
        | none => rw [hx] at hshape; cases hshape
        | some p4 =>
          obtain ⟨es0, eD0, rest⟩ := p4
          rw [hx] at hshape
          dsimp only at hshape
          by_cases hr : rest = []
          swap
          · rw [if_neg hr] at hshape
            cases hshape
          rw [if_pos hr] at hshape
          injection hshape with hshape
          injection hshape with he1 hshape
          injection hshape with he2 hshape
          injection hshape with he3 hshape
          injection hshape with he4 he5
          subst he1
          subst he2
          subst he3
          subst he4
          subst he5
          have hne : trimSpace raw ≠ [] := by
            intro he
            rw [he, scanSign_nil] at hs
            cases hs
          unfold shapeDigits shapeExp shapeDigits
          set D := (iD0 ++ fD0).dropWhile (fun c => c = '0') with hD
          have hDdig : allDigits D :=
            allDigits_dropWhile _ _
              (allDigits_append (scanIntDigits_digits hi) (scanFrac_digits hf))
          have hDz : D.head? ≠ some '0' := hD ▸ dropWhile_zero_head (iD0 ++ fD0)
          have hP : parseJSONRPCNumericID (trimSpace raw) =
              (if maxCanonicalJSONRPCIDAbsExp10 < natVal eD0 then .error .tooLarge
               else if D = [] then .ok (false, [], 0)
               else if maxCanonicalJSONRPCIDKeyLen < D.length then .error .tooLarge
               else .ok (neg0, D, es0 * (natVal eD0 : Int) - fD0.length)) := by
            unfold parseJSONRPCNumericID
            rw [hs]
            dsimp only
            rw [hi]
            dsimp only
            rw [hf]
            dsimp only
            rw [hx]
            dsimp only
            by_cases hed : eD0 = []
            · rw [if_pos hed]
              rw [Except.bind]
              rw [if_neg (by simp [hr])]
              rw [if_neg (show ¬ maxCanonicalJSONRPCIDAbsExp10 < natVal eD0 by
                rw [hed, natVal_nil]
                unfold maxCanonicalJSONRPCIDAbsExp10
                omega)]
              rw [show es0 * ((natVal eD0 : Nat) : Int) - fD0.length =
                  0 - fD0.length by rw [hed, natVal_nil]; ring]
            · rw [if_neg hed]
              have heDdig : allDigits eD0 := scanExpPart_digits hx
              obtain ⟨herr, hok⟩ := parseBoundedInt_err eD0 maxCanonicalJSONRPCIDAbsExp10
                (by unfold maxCanonicalJSONRPCIDAbsExp10; omega) heDdig hed
              by_cases hbige : maxCanonicalJSONRPCIDAbsExp10 < natVal eD0
              · rw [herr hbige]
                rw [if_pos hbige]
                rfl
              · rw [hok (by omega)]
                rw [if_neg hbige]
                simp only [Except.map, Except.bind]
                rw [if_neg (by simp [hr])]
                rfl
          rw [canonicalNumeric_of_parse hne, hP]
          by_cases hbige : maxCanonicalJSONRPCIDAbsExp10 < natVal eD0
          · rw [if_pos hbige]
            constructor
            · constructor
              · intro _
                exact Or.inl hbige
              · intro _
                rfl
            · intro hnot
              exact absurd (Or.inl hbige) hnot
          · rw [if_neg hbige]
            by_cases hDnil : D = []
            · rw [if_pos hDnil]
              have hfmt : formatCanonicalJSONRPCNumericID false [] 0 = .ok ['0'] := rfl
              dsimp only
              rw [hfmt]
              have htrim : trimTrailingZeros D = ([], 0) := by rw [hDnil]; rfl
              rw [htrim]
              constructor
              · constructor
                · intro hh
                  cases hh
                · intro hh
                  rcases hh with hh | hh | hh
                  · exact absurd hh hbige
                  · rw [hDnil] at hh
                    simp [maxCanonicalJSONRPCIDKeyLen] at hh
                  · simp [canonicalUnsignedLen, maxCanonicalJSONRPCIDKeyLen] at hh
              · intro hnot
                refine ⟨['0'], rfl, ?_⟩
                simp [canonicalUnsignedLen]
            · rw [if_neg hDnil]
              by_cases hDlen : maxCanonicalJSONRPCIDKeyLen < D.length
              · rw [if_pos hDlen]
                constructor
                · constructor
                  · intro _
                    exact Or.inr (Or.inl hDlen)
                  · intro _
                    rfl
                · intro hnot
                  exact absurd (Or.inr (Or.inl hDlen)) hnot
              · rw [if_neg hDlen]
                dsimp only
                rw [formatCanonical_eq]
                have hrne : (trimTrailingZeros D).1 ≠ [] :=
                  trim_ne_nil_of_ne_nil hDdig hDz hDnil
                rw [if_neg hrne]
                by_cases hbig3 : maxCanonicalJSONRPCIDKeyLen <
                    canonicalUnsignedLen (trimTrailingZeros D).1
                      (es0 * (natVal eD0 : Int) - fD0.length + (trimTrailingZeros D).2)
                · rw [if_pos hbig3]
                  constructor
                  · constructor
                    · intro _
                      exact Or.inr (Or.inr hbig3)
                    · intro _
                      rfl
                  · intro hnot
                    exact absurd (Or.inr (Or.inr hbig3)) hnot
                · rw [if_neg hbig3]
                  constructor
                  · constructor
                    · intro hh
                      cases hh
                    · intro hh
                      rcases hh with hh | hh | hh
                      · exact absurd hh hbige
                      · exact absurd hh hDlen
                      · exact absurd hh hbig3
                  · intro hnot
                    refine ⟨_, rfl, ?_⟩
                    rw [List.length_append, canonicalUnsigned_length _ _ hrne]
                    cases neg0 with
                    | true => simp [hrne]
                    | false => simp

/-- Witness for C4: the literal `1e5000` has written exponent 5000 > 4096
and is rejected as too large. -/
theorem c4_too_large_characterisation_witness :
    scanNumberShape (trimSpace "1e5000".data) =
      some (false, ['1'], [], 1, ['5', '0', '0', '0']) ∧
    canonicalJSONRPCNumericIDKey "1e5000".data = .error .tooLarge ∧
    maxCanonicalJSONRPCIDAbsExp10 < natVal ['5', '0', '0', '0'] :=
  ⟨by decide,
    ((c4_too_large_characterisation "1e5000".data false ['1'] [] 1 ['5', '0', '0', '0']
      (by decide)).1).mpr (Or.inl (by decide)),
    by decide⟩

/-- Counterexample for C4 as frozen.  First: the claim says the sign
contributes to the 4096-character key-length limit, so `-1e4095` (whose key
`-1` followed by 4095 zeros has 4097 characters) would have to be rejected
as too large; the code accepts it.  Second: the claim says every input
within the exponent and final-key-length limits succeeds, but the literal
`1` followed by 4096 zeros times `10^-4096` — whose written exponent
magnitude is exactly 4096 and whose canonical key would be the single
character `1`, as the accompanying format fact shows — is rejected as too
large by the pre-normalisation significant-digit bound. -/
lemma trimSpace_eq_self {l : List Char}
    (h1 : ∀ c, l.head? = some c → goIsSpace c = false)
    (h2 : ∀ c, l.getLast? = some c → goIsSpace c = false) : trimSpace l = l := by
  unfold trimSpace
  have hd : l.dropWhile goIsSpace = l := by
    cases l with
    | nil => rfl
    | cons c t => exact List.dropWhile_cons_of_neg (by simp [h1 c rfl])
  rw [hd]
  cases hrev : l.reverse with
  | nil =>
    have : l = [] := by simpa using congrArg List.reverse hrev
    rw [this]
    rfl
  | cons d r =>
    have hlast : l.getLast? = some d := by
      rw [← List.head?_reverse, hrev]
      rfl
    rw [List.dropWhile_cons_of_neg (by simp [h2 d hlast]), ← hrev, List.reverse_reverse]

lemma takeWhile_replicate_append (p : Char → Bool) (c : Char) (n : Nat) (r : List Char)
    (hc : p c = true) :
    (List.replicate n c ++ r).takeWhile p = List.replicate n c ++ r.takeWhile p ∧
    (List.replicate n c ++ r).dropWhile p = r.dropWhile p := by
  induction n with
  | zero => simp
  | succ m ih =>
    rw [List.replicate_succ]
    constructor
    · rw [List.cons_append, List.takeWhile_cons_of_pos hc, ih.1, List.cons_append]
    · rw [List.cons_append, List.dropWhile_cons_of_pos hc, ih.2]

lemma trimTrailingZeros_replicate (n : Nat) :
    trimTrailingZeros (List.replicate n '0') = ([], n) := by
  induction n with
  | zero => rfl
  | succ m ih =>
    rw [List.replicate_succ, trimTrailingZeros_cons_nil _ _ _ ih, if_pos rfl]

lemma trimTrailingZeros_cons_replicate (c : Char) (hc : c ≠ '0') (n : Nat) :
    trimTrailingZeros (c :: List.replicate n '0') = ([c], n) := by
  rw [trimTrailingZeros_cons_nil _ _ _ (trimTrailingZeros_replicate n), if_neg hc]

/-- Counterexample for C4 as frozen.  First: the claim says the sign
contributes to the 4096-character key-length limit, so `-1e4095` (whose key
`-1` followed by 4095 zeros has 4097 characters, over the limit) would have
to be rejected as too large; the code accepts it.  Second: the claim says
every input within the exponent and final-key-length limits succeeds, but
the literal `1` followed by 4096 zeros with exponent `-4096` — whose
written exponent magnitude is exactly 4096 and whose canonical key would be
the single character `1`, as the accompanying format fact shows — is
rejected as too large by the pre-normalisation significant-digit bound. -/
theorem c4_counterexample :
    (canonicalJSONRPCNumericIDKey ('-' :: '1' :: 'e' :: '4' :: '0' :: '9' :: '5' :: []) =
        .ok ('-' :: '1' :: List.replicate 4095 '0') ∧
      ('-' :: '1' :: List.replicate 4095 '0').length = 4097) ∧
    (canonicalJSONRPCNumericIDKey
        ('1' :: (List.replicate 4096 '0' ++ ('e' :: '-' :: '4' :: '0' :: '9' :: '6' :: []))) =
        .error .tooLarge ∧
      formatCanonicalJSONRPCNumericID false ('1' :: List.replicate 4096 '0') (-4096) =
        .ok ['1']) := by
  refine ⟨⟨?_, ?_⟩, ⟨?_, ?_⟩⟩
  · have hparse : parseJSONRPCNumericID
        (trimSpace ('-' :: '1' :: 'e' :: '4' :: '0' :: '9' :: '5' :: [])) =
        .ok (true, ['1'], 4095) := by decide
    rw [canonicalNumeric_of_parse (by decide), hparse]
    dsimp only
    rw [formatCanonical_eq]
    have ht : trimTrailingZeros ['1'] = (['1'], 0) := rfl
    rw [ht]
    dsimp only
    rw [if_neg (by simp : ¬ (['1'] : List Char) = [])]
    rw [show (4095 : Int) + ((0 : Nat) : Int) = 4095 by norm_num]
    rw [if_neg (by decide : ¬ maxCanonicalJSONRPCIDKeyLen < canonicalUnsignedLen ['1'] 4095)]
    have hu : canonicalUnsigned ['1'] 4095 = '1' :: List.replicate 4095 '0' := by
      unfold canonicalUnsigned
      rw [if_pos (by norm_num : (0 : Int) ≤ 4095)]
      rfl
    rw [hu]
    rfl
  · rw [List.length_cons, List.length_cons, List.length_replicate]
  · set L : List Char :=
      '1' :: (List.replicate 4096 '0' ++ ('e' :: '-' :: '4' :: '0' :: '9' :: '6' :: []))
      with hL
    have hmem : ∀ c ∈ L, goIsSpace c = false := by
      intro c hc
      rw [hL] at hc
      rcases List.mem_cons.mp hc with h | hc2
      · rw [h]; decide
      rcases List.mem_append.mp hc2 with h | h
      · rw [List.eq_of_mem_replicate h]; decide
      · fin_cases h <;> decide
    have htrim : trimSpace L = L := by
      apply trimSpace_eq_self
      · intro c hc
        exact hmem c (List.mem_of_mem_head? hc)
      · intro c hc
        exact hmem c (List.mem_of_getLast?_eq_some hc)
    have hscan := takeWhile_replicate_append isASCIIDigit '0' 4096
      ('e' :: '-' :: '4' :: '0' :: '9' :: '6' :: []) (by decide)
    have hparse : parseJSONRPCNumericID L = .error .tooLarge := by
      unfold parseJSONRPCNumericID
      have hsign : scanSign L = some (false, L) := by rw [hL]; rfl
      rw [hsign]
      dsimp only
      have hint : scanIntDigits L =
          some ('1' :: List.replicate 4096 '0',
            'e' :: '-' :: '4' :: '0' :: '9' :: '6' :: []) := by
        rw [hL]
        unfold scanIntDigits
        dsimp only
        rw [if_neg (by decide : ¬ ('1' : Char) = '0'),
          if_pos (by decide : ('1' ≤ '1' && '1' ≤ '9') = true)]
        rw [List.takeWhile_cons_of_pos (by decide : isASCIIDigit '1' = true),
          List.dropWhile_cons_of_pos (by decide : isASCIIDigit '1' = true)]
        rw [hscan.1, hscan.2]
        rw [show ('e' :: '-' :: '4' :: '0' :: '9' :: '6' :: []).takeWhile isASCIIDigit =
          [] from rfl]
        rw [show ('e' :: '-' :: '4' :: '0' :: '9' :: '6' :: []).dropWhile isASCIIDigit =
          'e' :: '-' :: '4' :: '0' :: '9' :: '6' :: [] from rfl]
        rw [List.append_nil]
      rw [hint]
      dsimp only
      rw [show scanFrac ('e' :: '-' :: '4' :: '0' :: '9' :: '6' :: []) =
        some ([], 'e' :: '-' :: '4' :: '0' :: '9' :: '6' :: []) from rfl]
      dsimp only
      rw [show scanExpPart ('e' :: '-' :: '4' :: '0' :: '9' :: '6' :: []) =
        some (-1, ['4', '0', '9', '6'], []) from by decide]
      dsimp only
      rw [if_neg (show ¬ (['4', '0', '9', '6'] : List Char) = [] from by decide)]
      rw [show parseBoundedInt ['4', '0', '9', '6'] maxCanonicalJSONRPCIDAbsExp10 =
        .ok 4096 from by decide]
      simp only [Except.map, Except.bind]
      rw [if_neg (by simp : ¬ ([] : List Char) ≠ [])]
      rw [List.append_nil]
      rw [List.dropWhile_cons_of_neg (by decide)]
      rw [if_neg (List.cons_ne_nil '1' (List.replicate 4096 '0'))]
      rw [if_pos (show maxCanonicalJSONRPCIDKeyLen <
          ('1' :: List.replicate 4096 '0').length by
        rw [List.length_cons, List.length_replicate]
        decide)]
    rw [canonicalNumeric_of_parse (by rw [htrim]; exact List.cons_ne_nil _ _), htrim,
      hparse]
  · rw [formatCanonical_eq]
    rw [trimTrailingZeros_cons_replicate '1' (by decide) 4096]
    dsimp only
    rw [if_neg (by simp : ¬ (['1'] : List Char) = [])]
    rw [show (-4096 : Int) + ((4096 : Nat) : Int) = 0 by norm_num]
    rw [if_neg (by decide : ¬ maxCanonicalJSONRPCIDKeyLen < canonicalUnsignedLen ['1'] 0)]
    rfl

/-! ## The connection layer

Shallow embedding of the `Connection` message handling of `connection.go`.
Byte strings are `List Char`; the `pending` and `inflight` maps become lists
of keys (each key registered at most once, as the Go code guarantees via the
strictly increasing id counter); channel sends into mailboxes and
invocations of inbound cancel handles are recorded in event lists so that
theorems can observe them; structured log calls are recorded in a log list.
`errors.go` is not among the sources, so the `RequestError` constructors and
`toReqErr` are modelled from the spec (§4.6) and the error tests. -/

/-- Modelled from the spec: `RequestError{code,message,data}` from the
missing `errors.go`.  Messages are not fixed by the spec and are omitted;
`data` keeps the payload the constructors carry. -/
structure RequestError where
  code : Int
  data : Option (List Char)
  deriving DecidableEq, Repr

/-- Modelled from the spec: `-32601` method not found (`NewMethodNotFound`).
The method name is the carried payload. -/
def NewMethodNotFound (method : List Char) : RequestError :=
  { code := -32601, data := some method }

/-- Modelled from the spec: `-32602` invalid params (`NewInvalidParams`),
carrying the marshal error text. -/
def NewInvalidParams (data : List Char) : RequestError :=
  { code := -32602, data := some data }

/-- Modelled from the spec: `-32603` internal error (`NewInternalError`),
carrying the cause text. -/
def NewInternalError (data : List Char) : RequestError :=
  { code := -32603, data := some data }

/-- A host-level Go `error` value as far as the transport distinguishes
them: `context.Canceled`, `context.DeadlineExceeded`, or anything else with
its text. -/
inductive GoErr where
  | canceled
  | deadlineExceeded
  | other (msg : List Char)
  deriving DecidableEq, Repr

/-- The text of a host error (`err.Error()` in Go). -/
def goErrString : GoErr → List Char
  | .canceled => "context canceled".data
  | .deadlineExceeded => "context deadline exceeded".data
  | .other msg => msg

/-- Modelled from the spec (§4.6) and `errors_test.go` /
`TestToReqErr_ContextCanceledMapsToRequestCancelled`: a cause matching
`context.Canceled` maps to `-32800`, `context.DeadlineExceeded` to
`-32603`, anything else to `-32603` with the cause text as data. -/
def toReqErr : GoErr → RequestError
  | .canceled => { code := -32800, data := none }
  | .deadlineExceeded => { code := -32603, data := none }
  | .other msg => { code := -32603, data := some msg }

/-- A Go `context.Context` as the transport observes it: whether it is
done, what `ctx.Err()` returns when done (always `context.Canceled` or
`context.DeadlineExceeded`), and what `context.Cause` returns (the richer
cancel cause, which may differ from `Err()`). -/
structure Ctx where
  done : Bool
  err : GoErr
  cause : GoErr
  deriving DecidableEq, Repr

/-- The envelope `anyMessage` of `connection.go`: raw id bytes, method
(empty string means absent), raw params bytes, raw result bytes and an
optional structured error. -/
structure AnyMessage where
  id? : Option (List Char)
  method : List Char
  params : List Char
  result : List Char
  error? : Option RequestError
  deriving DecidableEq, Repr

/-- The structured diagnostics of `connection.go`, one constructor per
logging call site. -/
inductive LogEvent where
  | parseError (raw : List Char)
  | canonFailResponse (raw : List Char)
  | canonFailRequest (raw : List Char)
  | canonFailCancel (raw : List Char)
  | cancelParamsParseError
  | cancelWithoutRequestID
  | notificationHandlerError (method : List Char) (code : Int)
  | dropCancelQueueFull
  | neitherIDNorMethod
  | sendCancelFailed
  deriving DecidableEq, Repr

/-- The observable state of a `Connection`: the pending-response key set,
the record of messages delivered into pending mailboxes, the inflight
inbound key set, the record of invoked inbound cancel handles, the bounded
cancel queue, the spawned request and notification workers (the reader
loop hands work to goroutines; spawning is the reader-loop side effect),
the id counter, the written wire messages and the log. -/
structure ConnState where
  pending : List (List Char)
  delivered : List (List Char × AnyMessage)
  inflight : List (List Char)
  cancelled : List (List Char × GoErr)
  pendingCancelRequest : List (List Char)
  spawnedRequests : List (List Char × AnyMessage)
  spawnedNotifications : List AnyMessage
  nextID : Nat
  wire : List AnyMessage
  logs : List LogEvent
  deriving DecidableEq, Repr

/-- The canonical-or-raw key used by `receive`, `handleResponse` and
`handleCancelRequest`: the canonical key when canonicalisation succeeds,
otherwise the raw bytes themselves (`idKey = string(*msg.ID)` fallback). -/
def idKeyOrRaw (raw : List Char) : List Char :=
  match canonicalJSONRPCIDKey raw with
  | .ok k => k
  | .error _ => raw

/-- Translation of `handleResponse` (`connection.go`, lines 394-411):
canonicalise the id (logging and falling back to the raw bytes on failure),
look up the pending map; if present remove the entry and deliver the
message into its mailbox, otherwise discard. -/
def handleResponse (c : ConnState) (msg : AnyMessage) : ConnState :=
  match msg.id? with
  | none => c
  | some raw =>
    let key := idKeyOrRaw raw
    let logs :=
      match canonicalJSONRPCIDKey raw with
      | .ok _ => c.logs
      | .error _ => LogEvent.canonFailResponse raw :: c.logs
    if key ∈ c.pending then
      { c with pending := c.pending.erase key,
               delivered := (key, msg) :: c.delivered,
               logs := logs }
    else { c with logs := logs }

/-- Translation of `handleCancelRequest` (`connection.go`, lines 413-438).
The `json.Unmarshal` of the params into `cancelRequestParams` is modelled
by `requestID?`: `none` models unmarshal failure, `some rid` the decoded
`requestId` bytes (an absent field decodes to empty bytes).  On success the
id is canonicalised with raw-bytes fallback and looked up in the inflight
map; a hit invokes that handle with cause `context.Canceled`. -/
def handleCancelRequest (c : ConnState) (requestID? : Option (List Char)) : ConnState :=
  match requestID? with
  | none => { c with logs := LogEvent.cancelParamsParseError :: c.logs }
  | some rid =>
    if trimSpace rid = [] then
      { c with logs := LogEvent.cancelWithoutRequestID :: c.logs }
    else
      let key := idKeyOrRaw rid
      let logs :=
        match canonicalJSONRPCIDKey rid with
        | .ok _ => c.logs
        | .error _ => LogEvent.canonFailCancel rid :: c.logs
      if key ∈ c.inflight then
        { c with cancelled := (key, GoErr.canceled) :: c.cancelled, logs := logs }
      else { c with logs := logs }

/-- The method name `$/cancel_request`. -/
def cancelRequestMethod : List Char := "$/cancel_request".data

/-- The `json.Unmarshal` of `$/cancel_request` params, supplied to the
reader loop alongside each message (see `handleCancelRequest`). -/
def CancelDecode := Option (List Char)

/-- Translation of the per-message body of the reader loop `receive`
(`connection.go`, lines 335-387), after JSON decoding: classify the
message in source order — `$/cancel_request` notifications are handled
synchronously; a message with id and empty method is a response; a message
with a method is a request (register inflight under the canonical-or-raw
key, log on canonicalisation failure, spawn a worker) or a notification
(spawn a worker tracked by the wait group); otherwise log.  `cancelDecode`
carries the unmarshal outcome of the params for the cancel case. -/
def processMessage (c : ConnState) (msg : AnyMessage) (cancelDecode : Option (List Char)) :
    ConnState :=
  if msg.id? = none ∧ msg.method = cancelRequestMethod then
    handleCancelRequest c cancelDecode
  else if msg.id?.isSome ∧ msg.method = [] then
    handleResponse c msg
  else if msg.method ≠ [] then
    match msg.id? with
    | some raw =>
      let key := idKeyOrRaw raw
      let logs :=
        match canonicalJSONRPCIDKey raw with
        | .ok _ => c.logs
        | .error _ => LogEvent.canonFailRequest raw :: c.logs
      { c with inflight := key :: c.inflight,
               spawnedRequests := (key, msg) :: c.spawnedRequests,
               logs := logs }
    | none =>
      { c with spawnedNotifications := msg :: c.spawnedNotifications }
  else { c with logs := LogEvent.neitherIDNorMethod :: c.logs }

/-- Outcome of `json.Marshal` on a caller-supplied `params any` value:
absent (`nil`), marshallable to bytes, or failing with an error text. -/
inductive ParamsVal where
  | absent
  | bytes (b : List Char)
  | unmarshallable (err : List Char)
  deriving DecidableEq, Repr

/-- Decimal representation of a natural number, as `json.Marshal` renders a
`uint64`. -/
def natRepr (n : Nat) : List Char :=
  if h : n < 10 then [Char.ofNat (48 + n)]
  else natRepr (n / 10) ++ [Char.ofNat (48 + n % 10)]
  decreasing_by exact Nat.div_lt_self (by omega) (by norm_num)

/-- Translation of `prepareRequest` (`connection.go`, lines 536-555):
increment the id counter, marshal the id, build the message; a params
marshal failure returns `NewInvalidParams` carrying the error text.  The
returned key is `string(idRaw)` — the raw marshalled bytes. -/
def prepareRequest (c : ConnState) (method : List Char) (params : ParamsVal) :
    ConnState × Except RequestError (AnyMessage × List Char) :=
  let c := { c with nextID := c.nextID + 1 }
  let idRaw := natRepr c.nextID
  match params with
  | .unmarshallable e => (c, .error (NewInvalidParams e))
  | .absent =>
    (c, .ok ({ id? := some idRaw,
               method := method,
               params := [],
               result := [],
               error? := none }, idRaw))
  | .bytes b =>
    (c, .ok ({ id? := some idRaw,
               method := method,
               params := b,
               result := [],
               error? := none }, idRaw))

/-- Translation of the front of `SendRequest` (`connection.go`, lines
496-512), up to the point where the caller starts waiting: on a prepare
failure the error is returned with nothing registered and nothing written;
otherwise the pending entry is registered and the message written. -/
def sendRequestPrefix (c : ConnState) (method : List Char) (params : ParamsVal) :
    ConnState × Option RequestError :=
  match prepareRequest c method params with
  | (c1, .error e) => (c1, some e)
  | (c1, .ok (msg, idKey)) =>
    ({ c1 with pending := idKey :: c1.pending, wire := msg :: c1.wire }, none)

/-- Translation of `SendNotification` (`connection.go`, lines 685-701): if
the context is already done, return an internal error carrying the
`ctx.Err()` text without touching the wire; otherwise marshal (invalid
params on failure, wire untouched) and write. -/
def SendNotification (c : ConnState) (ctx : Ctx) (method : List Char)
    (params : ParamsVal) : ConnState × Option RequestError :=
  if ctx.done then
    (c, some (NewInternalError (goErrString ctx.err)))
  else
    match params with
    | .unmarshallable e => (c, some (NewInvalidParams e))
    | .absent =>
      ({ c with wire := { id? := none,
                          method := method,
                          params := [],
                          result := [],
                          error? := none } :: c.wire }, none)
    | .bytes b =>
      ({ c with wire := { id? := none,
                          method := method,
                          params := b,
                          result := [],
                          error? := none } :: c.wire }, none)

/-- Translation of `sendCancelRequest` (`connection.go`, lines 582-611):
ignore blank keys; ignore when the connection is closed; if the bounded
queue is full, drop the id with a debug log; otherwise enqueue.  The
non-blocking wake signal carries no state beyond the queue and is not
modelled. -/
def sendCancelRequest (c : ConnState) (connDone : Bool) (idKey : List Char) : ConnState :=
  if trimSpace idKey = [] then c
  else if connDone then c
  else if maxPendingCancelRequests ≤ c.pendingCancelRequest.length then
    { c with logs := LogEvent.dropCancelQueueFull :: c.logs }
  else { c with pendingCancelRequest := c.pendingCancelRequest ++ [idKey] }

/-- Translation of one drain step of `sendCancelRequests` (`connection.go`,
lines 557-580): pop the queue head and emit a `$/cancel_request`
notification bearing it (a send failure is logged at debug level and does
not requeue). -/
def sendCancelRequestsStep (c : ConnState) : ConnState :=
  match c.pendingCancelRequest with
  | [] => c
  | idKey :: rest =>
    { c with pendingCancelRequest := rest,
             wire := { id? := none,
                       method := cancelRequestMethod,
                       params := idKey,
                       result := [],
                       error? := none } :: c.wire }

/-! ## Facts about the decimal representation of outbound ids -/

lemma goIsSpace_eq_false_of_digit {c : Char} (h : isASCIIDigit c = true) :
    goIsSpace c = false := by
  have h1 := isASCIIDigit_iff.mp h
  unfold goIsSpace
  simp only [Bool.or_eq_false_iff, decide_eq_false_iff_not]
  refine ⟨⟨⟨⟨⟨⟨⟨?_, ?_⟩, ?_⟩, ?_⟩, ?_⟩, ?_⟩, ?_⟩, ?_⟩
  all_goals intro he
  · rw [he] at h1; revert h1; decide
  · rw [he] at h1; revert h1; decide
  · rw [he] at h1; revert h1; decide
  · omega
  · omega
  · rw [he] at h1; revert h1; decide
  · omega
  · omega

lemma takeWhile_all {p : Char → Bool} {l : List Char} (h : ∀ c ∈ l, p c = true) :
    l.takeWhile p = l ∧ l.dropWhile p = [] := by
  induction l with
  | nil => exact ⟨rfl, rfl⟩
  | cons c t ih =>
    obtain ⟨h1, h2⟩ := ih (fun x hx => h x (by simp [hx]))
    exact ⟨by rw [List.takeWhile_cons_of_pos (h c (by simp)), h1],
      by rw [List.dropWhile_cons_of_pos (h c (by simp)), h2]⟩

lemma scanSign_cons {c : Char} (t : List Char) (h : c ≠ '-') :
    scanSign (c :: t) = some (false, c :: t) := by
  unfold scanSign
  split
  · rename_i heq
    cases heq
  · rename_i rest heq
    injection heq with h1 _
    exact absurd h1 h
  · rename_i l hne
    rfl

lemma natRepr_allDigits (n : Nat) : allDigits (natRepr n) := by
  induction n using Nat.strong_induction_on with
  | _ n ih =>
    unfold natRepr
    split
    · rename_i h
      intro c hc
      simp only [List.mem_singleton] at hc
      subst hc
      interval_cases n <;> decide
    · rename_i h
      intro c hc
      rcases List.mem_append.mp hc with h2 | h2
      · exact ih (n / 10) (Nat.div_lt_self (by omega) (by norm_num)) c h2
      · simp only [List.mem_singleton] at h2
        subst h2
        obtain ⟨m, hm, hmlt⟩ : ∃ m, n % 10 = m ∧ m < 10 :=
          ⟨n % 10, rfl, Nat.mod_lt _ (by norm_num)⟩
        rw [hm]
        interval_cases m <;> decide

lemma natVal_natRepr (n : Nat) : natVal (natRepr n) = n := by
  induction n using Nat.strong_induction_on with
  | _ n ih =>
    unfold natRepr
    split
    · rename_i h
      interval_cases n <;> decide
    · rename_i h
      rw [natVal_concat, ih (n / 10) (Nat.div_lt_self (by omega) (by norm_num))]
      obtain ⟨m, hm, hmlt⟩ : ∃ m, n % 10 = m ∧ m < 10 :=
        ⟨n % 10, rfl, Nat.mod_lt _ (by norm_num)⟩
      have hd : digitToNat (Char.ofNat (48 + n % 10)) = n % 10 := by
        rw [hm]
        interval_cases m <;> decide
      rw [hd]
      omega

lemma natRepr_ne_nil (n : Nat) : natRepr n ≠ [] := by
  unfold natRepr
  split
  · simp
  · simp

lemma natRepr_head (n : Nat) (h : 1 ≤ n) : (natRepr n).head? ≠ some '0' := by
  induction n using Nat.strong_induction_on with
  | _ n ih =>
    unfold natRepr
    split
    · rename_i hlt
      interval_cases n <;> decide
    · rename_i hlt
      have hne := natRepr_ne_nil (n / 10)
      cases hr : natRepr (n / 10) with
      | nil => exact absurd hr hne
      | cons c0 t0 =>
        have := ih (n / 10) (Nat.div_lt_self (by omega) (by norm_num))
          (by omega : 1 ≤ n / 10)
        rw [hr] at this
        simpa using this

lemma natRepr_scans (n : Nat) (h : 1 ≤ n) :
    scanSign (natRepr n) = some (false, natRepr n) ∧
    scanIntDigits (natRepr n) = some (natRepr n, []) := by
  have hdig := natRepr_allDigits n
  have hhead := natRepr_head n h
  cases hr : natRepr n with
  | nil => exact absurd hr (natRepr_ne_nil n)
  | cons c t =>
    have hcd : isASCIIDigit c = true := (hr ▸ hdig) c (by simp)
    have hc0 : c ≠ '0' := by
      have := hr ▸ hhead
      simpa using this
    have hcn : c ≠ '-' := digit_ne_dash hcd
    refine ⟨scanSign_cons t hcn, ?_⟩
    unfold scanIntDigits
    dsimp only
    rw [if_neg hc0]
    have h19 : ('1' ≤ c && c ≤ '9') = true := by
      rw [Bool.and_eq_true, decide_eq_true_eq, decide_eq_true_eq, Char.le_def, Char.le_def]
      have h1 := isASCIIDigit_iff.mp hcd
      have hz : c.toNat ≠ 48 := by
        intro he
        exact hc0 (digitToNat_eq_char hcd (by decide)
          (by unfold digitToNat; rw [char_zero_toNat, he]))
      exact ⟨by show 49 ≤ c.toNat; omega, by show c.toNat ≤ 57; omega⟩
    rw [if_pos h19]
    obtain ⟨h1, h2⟩ := takeWhile_all (p := isASCIIDigit) (l := c :: t) (hr ▸ hdig)
    rw [h1, h2]

lemma trimSpace_natRepr (n : Nat) : trimSpace (natRepr n) = natRepr n := by
  have hdig := natRepr_allDigits n
  apply trimSpace_eq_self
  · intro c hc
    exact goIsSpace_eq_false_of_digit (hdig c (List.mem_of_mem_head? hc))
  · intro c hc
    exact goIsSpace_eq_false_of_digit (hdig c (List.mem_of_getLast?_eq_some hc))

lemma natRepr_literal (n : Nat) (h : 1 ≤ n) :
    numberLiteralValue (natRepr n) = some ((n : Nat) : ℚ) := by
  obtain ⟨hs, hi⟩ := natRepr_scans n h
  unfold numberLiteralValue
  rw [trimSpace_natRepr, hs]
  dsimp only
  rw [hi]
  dsimp only
  rw [show scanFrac ([] : List Char) = some ([], []) from rfl]
  dsimp only
  rw [show scanExpPart ([] : List Char) = some (1, [], []) from rfl]
  dsimp only
  rw [if_pos rfl]
  congr 1
  unfold ratValue
  rw [List.append_nil, natVal_natRepr, natVal_nil]
  norm_num

lemma natRepr_parse (n : Nat) (h : 1 ≤ n)
    (hlen : (natRepr n).length ≤ maxCanonicalJSONRPCIDKeyLen) :
    parseJSONRPCNumericID (trimSpace (natRepr n)) = .ok (false, natRepr n, 0) := by
  obtain ⟨hs, hi⟩ := natRepr_scans n h
  rw [trimSpace_natRepr]
  unfold parseJSONRPCNumericID
  rw [hs]
  dsimp only
  rw [hi]
  dsimp only
  rw [show scanFrac ([] : List Char) = some ([], []) from rfl]
  dsimp only
  rw [show scanExpPart ([] : List Char) = some (1, [], []) from rfl]
  dsimp only
  rw [if_pos rfl]
  rw [Except.bind]
  rw [if_neg (by simp : ¬ ([] : List Char) ≠ [])]
  rw [List.append_nil]
  have hdw : (natRepr n).dropWhile (fun c => c = '0') = natRepr n := by
    cases hr : natRepr n with
    | nil => rfl
    | cons c t =>
      have hc0 : c ≠ '0' := by
        have := hr ▸ natRepr_head n h
        simpa using this
      exact List.dropWhile_cons_of_neg (by simp [hc0])
  rw [hdw]
  rw [if_neg (natRepr_ne_nil n)]
  rw [if_neg (by omega : ¬ maxCanonicalJSONRPCIDKeyLen < (natRepr n).length)]
  rw [show (0 : Int) - (([] : List Char).length : Int) = 0 by norm_num]

lemma natRepr_format (n : Nat) (h : 1 ≤ n)
    (hlen : (natRepr n).length ≤ maxCanonicalJSONRPCIDKeyLen) :
    formatCanonicalJSONRPCNumericID false (natRepr n) 0 = .ok (natRepr n) := by
  rw [formatCanonical_eq]
  have hr : (trimTrailingZeros (natRepr n)).1 ≠ [] :=
    trim_ne_nil_of_ne_nil (natRepr_allDigits n) (natRepr_head n h) (natRepr_ne_nil n)
  rw [if_neg hr]
  have happ := trimTrailingZeros_append (natRepr n)
  have hlen2 : (trimTrailingZeros (natRepr n)).1.length + (trimTrailingZeros (natRepr n)).2 =
      (natRepr n).length := by
    conv_rhs => rw [happ]
    rw [List.length_append, List.length_replicate]
  have htn : ((0 : Int) + ((trimTrailingZeros (natRepr n)).2 : Int)).toNat =
      (trimTrailingZeros (natRepr n)).2 := by omega
  have hul : canonicalUnsignedLen (trimTrailingZeros (natRepr n)).1
      (0 + ((trimTrailingZeros (natRepr n)).2 : Int)) = (natRepr n).length := by
    unfold canonicalUnsignedLen
    rw [if_neg hr, if_pos (by omega : (0 : Int) ≤ 0 + ((trimTrailingZeros (natRepr n)).2 : Int))]
    rw [htn]
    omega
  rw [hul]
  rw [if_neg (by omega : ¬ maxCanonicalJSONRPCIDKeyLen < (natRepr n).length)]
  unfold canonicalUnsigned
  rw [if_pos (by omega : (0 : Int) ≤ 0 + ((trimTrailingZeros (natRepr n)).2 : Int))]
  rw [htn]
  rw [if_neg (by simp : ¬ false = true), List.nil_append, ← happ]

lemma natRepr_canonical (n : Nat) (h : 1 ≤ n)
    (hlen : (natRepr n).length ≤ maxCanonicalJSONRPCIDKeyLen) :
    canonicalJSONRPCIDKey (natRepr n) = .ok (natRepr n) := by
  rw [canonicalJSONRPCIDKey_of_literal (natRepr_literal n h)]
  rw [canonicalNumeric_of_parse (by rw [trimSpace_natRepr]; exact natRepr_ne_nil n)]
  rw [natRepr_parse n h hlen]
  exact natRepr_format n h hlen

/-! ## Claim C2: response routing through the pending map -/

/-- C2: an inbound message with an id and an empty method is routed to
`handleResponse`, which looks up the canonical key of the id (raw bytes on
canonicalisation failure) in the pending map; a hit removes the entry and
delivers the message into its mailbox, a miss leaves the map untouched and
discards the message; a delivered entry is gone from the map, so a
registration receives at most one message; and for an outbound id `n` (keyed
by its decimal bytes) any response encoding denoting the rational `n`
canonicalises to that very key, so it is delivered to the awaiting
caller. -/
theorem c2_response_delivery (st : ConnState) (msg : AnyMessage) (raw : List Char)
    (cd : Option (List Char)) (hid : msg.id? = some raw) (hm : msg.method = []) :
    processMessage st msg cd = handleResponse st msg ∧
    (idKeyOrRaw raw ∈ st.pending →
      (handleResponse st msg).pending = st.pending.erase (idKeyOrRaw raw) ∧
      (handleResponse st msg).delivered = (idKeyOrRaw raw, msg) :: st.delivered) ∧
    (idKeyOrRaw raw ∉ st.pending →
      (handleResponse st msg).pending = st.pending ∧
      (handleResponse st msg).delivered = st.delivered) ∧
    (idKeyOrRaw raw ∈ st.pending → st.pending.Nodup →
      idKeyOrRaw raw ∉ (handleResponse st msg).pending) ∧
    (∀ (n : Nat) (k : List Char), 1 ≤ n →
      (natRepr n).length ≤ maxCanonicalJSONRPCIDKeyLen →
      canonicalJSONRPCIDKey raw = .ok k →
      numberLiteralValue raw = some ((n : Nat) : ℚ) →
      idKeyOrRaw raw = natRepr n) := by
  have hclass : processMessage st msg cd = handleResponse st msg := by
    unfold processMessage
    rw [if_neg (by simp [hid]), if_pos (by simp [hid, hm])]
  have hhr : handleResponse st msg =
      (let key := idKeyOrRaw raw
       let logs :=
         match canonicalJSONRPCIDKey raw with
         | .ok _ => st.logs
         | .error _ => LogEvent.canonFailResponse raw :: st.logs
       if key ∈ st.pending then
         { st with pending := st.pending.erase key,
                   delivered := (key, msg) :: st.delivered,
                   logs := logs }
       else { st with logs := logs }) := by
    unfold handleResponse
    rw [hid]
  refine ⟨hclass, ?_, ?_, ?_, ?_⟩
  · intro hmem
    rw [hhr]
    dsimp only
    rw [if_pos hmem]
    exact ⟨rfl, rfl⟩
  · intro hmem
    rw [hhr]
    dsimp only
    rw [if_neg hmem]
    exact ⟨rfl, rfl⟩
  · intro hmem hnd
    rw [hhr]
    dsimp only
    rw [if_pos hmem]
    exact hnd.not_mem_erase
  · intro n k h1 hlen hok hval
    have hkey : idKeyOrRaw raw = k := by
      unfold idKeyOrRaw
      rw [hok]
    rw [hkey]
    exact (canonicalKey_eq_iff_value_eq raw (natRepr n) k (natRepr n)
      ((n : Nat) : ℚ) ((n : Nat) : ℚ) hval (natRepr_literal n h1) hok
      (natRepr_canonical n h1 hlen)).mpr rfl

/-- Concrete state for the C2 witness: one pending entry under key `1`. -/
def c2WitnessState : ConnState :=
  { pending := ["1".data],
    delivered := [],
    inflight := [],
    cancelled := [],
    pendingCancelRequest := [],
    spawnedRequests := [],
    spawnedNotifications := [],
    nextID := 1,
    wire := [],
    logs := [] }

/-- Concrete response message for the C2 witness: id written as `1e0`. -/
def c2WitnessMsg : AnyMessage :=
  { id? := some "1e0".data,
    method := [],
    params := [],
    result := [],
    error? := none }

/-- Witness for C2: a response with id `1e0` is delivered into the pending
entry keyed `1` and that entry is removed. -/
theorem c2_response_delivery_witness :
    (handleResponse c2WitnessState c2WitnessMsg).delivered =
      [("1".data, c2WitnessMsg)] ∧
    (handleResponse c2WitnessState c2WitnessMsg).pending = [] := by
  have h := c2_response_delivery c2WitnessState c2WitnessMsg "1e0".data none rfl rfl
  have hmem : idKeyOrRaw "1e0".data ∈ c2WitnessState.pending := by decide
  obtain ⟨hp, hd⟩ := h.2.1 hmem
  constructor
  · rw [hd]
    rfl
  · rw [hp]
    rfl

/-! ## Claims C5, C6, C7 -/

/-- C5: a `SendRequest` whose params fail to marshal returns the
`NewInvalidParams` structured error (code `-32602`) after only bumping the
id counter: nothing is written to the wire and no pending entry is
allocated. -/
theorem c5_invalid_params_local (st : ConnState) (method e : List Char) :
    sendRequestPrefix st method (.unmarshallable e) =
      ({ st with nextID := st.nextID + 1 }, some (NewInvalidParams e)) ∧
    (NewInvalidParams e).code = -32602 ∧
    (sendRequestPrefix st method (.unmarshallable e)).1.wire = st.wire ∧
    (sendRequestPrefix st method (.unmarshallable e)).1.pending = st.pending :=
  ⟨rfl, rfl, rfl, rfl⟩

/-- An empty connection state, used to instantiate witnesses. -/
def emptyConn : ConnState :=
  { pending := [],
    delivered := [],
    inflight := [],
    cancelled := [],
    pendingCancelRequest := [],
    spawnedRequests := [],
    spawnedNotifications := [],
    nextID := 0,
    wire := [],
    logs := [] }

/-- A context that is done with `Err() = context.Canceled` but whose
cancellation cause is the distinct error `boom`. -/
def c6Ctx : Ctx := { done := true, err := .canceled, cause := .other "boom".data }

/-- Counterexample for C6 as frozen: the claim says a notification sent on
a done context returns an internal error carrying the context's cause, but
`SendNotification` embeds `ctx.Err().Error()`; on a context cancelled with
cause `boom` the returned error carries `context canceled`, not `boom`. -/
theorem c6_counterexample :
    SendNotification emptyConn c6Ctx "m".data .absent =
      (emptyConn, some (NewInternalError "context canceled".data)) ∧
    goErrString c6Ctx.cause = "boom".data ∧
    "context canceled".data ≠ "boom".data :=
  ⟨rfl, rfl, by decide⟩

/-- C6 (amended): a `SendNotification` on an already-done context returns an
internal error (code `-32603`) carrying the text of `ctx.Err()` — `context
canceled` or `context deadline exceeded`, not the cancellation cause — and
writes nothing; on a live context it marshals and writes the notification
(returning invalid params without writing if the marshal fails); and in no
case does it touch the pending map. -/
theorem c6_notification_context_done (st : ConnState) (ctx : Ctx) (method : List Char)
    (params : ParamsVal) :
    (ctx.done = true →
      SendNotification st ctx method params =
        (st, some (NewInternalError (goErrString ctx.err))) ∧
      (NewInternalError (goErrString ctx.err)).code = -32603) ∧
    (ctx.done = false → ∀ b, params = .bytes b →
      SendNotification st ctx method params =
        ({ st with wire := { id? := none,
                             method := method,
                             params := b,
                             result := [],
                             error? := none } :: st.wire }, none)) ∧
    (ctx.done = false → ∀ e, params = .unmarshallable e →
      SendNotification st ctx method params = (st, some (NewInvalidParams e))) ∧
    (SendNotification st ctx method params).1.pending = st.pending := by
  refine ⟨?_, ?_, ?_, ?_⟩
  · intro hd
    unfold SendNotification
    rw [if_pos hd]
    exact ⟨rfl, rfl⟩
  · intro hd b hb
    unfold SendNotification
    rw [if_neg (by simp [hd]), hb]
  · intro hd e he
    unfold SendNotification
    rw [if_neg (by simp [hd]), he]
  · unfold SendNotification
    by_cases hd : ctx.done = true
    · rw [if_pos hd]
    · rw [if_neg hd]
      cases params <;> rfl

/-- Witness for C6: on the concrete done context `c6Ctx`, `SendNotification`
returns the state unchanged plus an internal error with the `ctx.Err()` text
and code `-32603`. -/
theorem c6_notification_context_done_witness :
    SendNotification emptyConn c6Ctx "m".data .absent =
      (emptyConn, some (NewInternalError (goErrString c6Ctx.err))) ∧
    (NewInternalError (goErrString c6Ctx.err)).code = -32603 :=
  (c6_notification_context_done emptyConn c6Ctx "m".data .absent).1 rfl

/-! ## Claim C7: synchronous cancel-request handling -/

/-- `handleCancelRequest` only records cancellations and logs: it spawns no
worker and touches neither the pending map nor the wire. -/
lemma handleCancelRequest_frame (c : ConnState) (cd : Option (List Char)) :
    (handleCancelRequest c cd).spawnedRequests = c.spawnedRequests ∧
    (handleCancelRequest c cd).spawnedNotifications = c.spawnedNotifications ∧
    (handleCancelRequest c cd).pending = c.pending ∧
    (handleCancelRequest c cd).wire = c.wire := by
  cases cd with
  | none => exact ⟨rfl, rfl, rfl, rfl⟩
  | some rid =>
    unfold handleCancelRequest
    dsimp only
    by_cases hb : trimSpace rid = []
    · rw [if_pos hb]; exact ⟨rfl, rfl, rfl, rfl⟩
    · rw [if_neg hb]
      by_cases hk : idKeyOrRaw rid ∈ c.inflight
      · rw [if_pos hk]; exact ⟨rfl, rfl, rfl, rfl⟩
      · rw [if_neg hk]; exact ⟨rfl, rfl, rfl, rfl⟩

/-- C7: an inbound `$/cancel_request` notification (no id, that method) is
handled synchronously by the reader loop — `processMessage` runs
`handleCancelRequest` in place, spawning no worker, so any later message is
processed from the post-cancellation state; on a decoded non-blank
`requestId` the canonical-or-raw key is looked up in the inflight map, a hit
invokes that handle with cause `context.Canceled` (which `toReqErr` maps to
code `-32800`), and a miss leaves the state unchanged except for logs. -/
theorem c7_cancel_request_sync (c : ConnState) (msg : AnyMessage)
    (cd : Option (List Char))
    (hid : msg.id? = none) (hm : msg.method = cancelRequestMethod) :
    processMessage c msg cd = handleCancelRequest c cd ∧
    (∀ msg2 cd2, processMessage (processMessage c msg cd) msg2 cd2 =
      processMessage (handleCancelRequest c cd) msg2 cd2) ∧
    (processMessage c msg cd).spawnedRequests = c.spawnedRequests ∧
    (processMessage c msg cd).spawnedNotifications = c.spawnedNotifications ∧
    (∀ rid, cd = some rid → trimSpace rid ≠ [] →
      (idKeyOrRaw rid ∈ c.inflight →
        (handleCancelRequest c cd).cancelled =
          (idKeyOrRaw rid, GoErr.canceled) :: c.cancelled ∧
        toReqErr GoErr.canceled = { code := -32800, data := none }) ∧
      (idKeyOrRaw rid ∉ c.inflight →
        (handleCancelRequest c cd).cancelled = c.cancelled ∧
        (handleCancelRequest c cd).inflight = c.inflight ∧
        (handleCancelRequest c cd).pending = c.pending ∧
        (handleCancelRequest c cd).wire = c.wire)) := by
  have hcls : processMessage c msg cd = handleCancelRequest c cd := by
    unfold processMessage
    rw [if_pos ⟨hid, hm⟩]
  refine ⟨hcls, fun msg2 cd2 => by rw [hcls], ?_, ?_, ?_⟩
  · rw [hcls]; exact (handleCancelRequest_frame c cd).1
  · rw [hcls]; exact (handleCancelRequest_frame c cd).2.1
  · rintro rid rfl hb
    constructor
    · intro hk
      refine ⟨?_, rfl⟩
      unfold handleCancelRequest
      dsimp only
      rw [if_neg hb, if_pos hk]
    · intro hk
      unfold handleCancelRequest
      dsimp only
      rw [if_neg hb, if_neg hk]
      exact ⟨rfl, rfl, rfl, rfl⟩

/-- Connection state for the C7 witness: request id `1` is inflight. -/
def c7WitnessState : ConnState :=
  { emptyConn with inflight := ["1".data] }

/-- The `$/cancel_request` notification of the C7 witness. -/
def c7WitnessMsg : AnyMessage :=
  { id? := none,
    method := cancelRequestMethod,
    params := "1".data,
    result := [],
    error? := none }

/-- Witness for C7: on a state with id `1` inflight, the cancel notification
is handled in place and invokes the handle with `context.Canceled`, which
maps to code `-32800`. -/
theorem c7_cancel_request_sync_witness :
    processMessage c7WitnessState c7WitnessMsg (some "1".data) =
      handleCancelRequest c7WitnessState (some "1".data) ∧
    (handleCancelRequest c7WitnessState (some "1".data)).cancelled =
      [("1".data, GoErr.canceled)] ∧
    toReqErr GoErr.canceled = { code := -32800, data := none } := by
  obtain ⟨h1, _, _, _, h5⟩ :=
    c7_cancel_request_sync c7WitnessState c7WitnessMsg (some "1".data) rfl rfl
  obtain ⟨hcan, hcode⟩ := (h5 "1".data rfl (by decide)).1 (by decide)
  exact ⟨h1, hcan, hcode⟩

/-! ## Claim C9: the bounded cancel queue -/

/-- Neither the reader loop nor the senders touch the cancel queue: only
`sendCancelRequest` enqueues and `sendCancelRequestsStep` dequeues. -/
lemma pendingCancelRequest_frame (c : ConnState) :
    (∀ msg, (handleResponse c msg).pendingCancelRequest = c.pendingCancelRequest) ∧
    (∀ cd, (handleCancelRequest c cd).pendingCancelRequest = c.pendingCancelRequest) ∧
    (∀ msg cd, (processMessage c msg cd).pendingCancelRequest = c.pendingCancelRequest) ∧
    (∀ method params,
      (sendRequestPrefix c method params).1.pendingCancelRequest =
        c.pendingCancelRequest) ∧
    (∀ ctx method params,
      (SendNotification c ctx method params).1.pendingCancelRequest =
        c.pendingCancelRequest) := by
  have hresp : ∀ msg, (handleResponse c msg).pendingCancelRequest =
      c.pendingCancelRequest := by
    intro msg
    unfold handleResponse
    cases hi : msg.id? with
    | none => rfl
    | some raw =>
      dsimp only
      by_cases hk : idKeyOrRaw raw ∈ c.pending
      · rw [if_pos hk]
      · rw [if_neg hk]
  have hcancel : ∀ cd, (handleCancelRequest c cd).pendingCancelRequest =
      c.pendingCancelRequest := by
    intro cd
    cases cd with
    | none => rfl
    | some rid =>
      unfold handleCancelRequest
      dsimp only
      by_cases hb : trimSpace rid = []
      · rw [if_pos hb]
      · rw [if_neg hb]
        by_cases hk : idKeyOrRaw rid ∈ c.inflight
        · rw [if_pos hk]
        · rw [if_neg hk]
  refine ⟨hresp, hcancel, ?_, ?_, ?_⟩
  · intro msg cd
    unfold processMessage
    by_cases h1 : msg.id? = none ∧ msg.method = cancelRequestMethod
    · rw [if_pos h1]; exact hcancel cd
    · rw [if_neg h1]
      by_cases h2 : msg.id?.isSome ∧ msg.method = []
      · rw [if_pos h2]; exact hresp msg
      · rw [if_neg h2]
        by_cases h3 : msg.method ≠ []
        · rw [if_pos h3]
          cases msg.id? <;> rfl
        · rw [if_neg h3]
  · intro method params
    unfold sendRequestPrefix prepareRequest
    cases params <;> rfl
  · intro ctx method params
    unfold SendNotification
    by_cases hd : ctx.done = true
    · rw [if_pos hd]
    · rw [if_neg hd]
      cases params <;> rfl

/-- C9: the cancel queue is bounded by 1024 — both the enqueue and the
drain step preserve `length ≤ 1024`, no other operation touches the queue,
and an enqueue that finds the queue full drops the id with a debug log,
changing nothing else (so the cancelling request's local completion is
unaffected). -/
theorem c9_cancel_queue_bounded (c : ConnState) (connDone : Bool) (idKey : List Char)
    (h : c.pendingCancelRequest.length ≤ maxPendingCancelRequests) :
    (sendCancelRequest c connDone idKey).pendingCancelRequest.length ≤
      maxPendingCancelRequests ∧
    (sendCancelRequestsStep c).pendingCancelRequest.length ≤
      maxPendingCancelRequests ∧
    (maxPendingCancelRequests ≤ c.pendingCancelRequest.length →
      trimSpace idKey ≠ [] → connDone = false →
      sendCancelRequest c connDone idKey =
        { c with logs := LogEvent.dropCancelQueueFull :: c.logs }) ∧
    (∀ msg cd, (processMessage c msg cd).pendingCancelRequest =
      c.pendingCancelRequest) ∧
    (∀ method params,
      (sendRequestPrefix c method params).1.pendingCancelRequest =
        c.pendingCancelRequest) ∧
    (∀ ctx method params,
      (SendNotification c ctx method params).1.pendingCancelRequest =
        c.pendingCancelRequest) := by
  obtain ⟨_, _, hproc, hreq, hnotif⟩ := pendingCancelRequest_frame c
  refine ⟨?_, ?_, ?_, hproc, hreq, hnotif⟩
  · unfold sendCancelRequest
    by_cases hb : trimSpace idKey = []
    · rw [if_pos hb]; exact h
    · rw [if_neg hb]
      by_cases hdn : connDone = true
      · rw [if_pos hdn]; exact h
      · rw [if_neg hdn]
        by_cases hf : maxPendingCancelRequests ≤ c.pendingCancelRequest.length
        · rw [if_pos hf]; exact h
        · rw [if_neg hf]
          simp only [List.length_append, List.length_cons, List.length_nil]
          omega
  · unfold sendCancelRequestsStep
    cases hq : c.pendingCancelRequest with
    | nil => dsimp only; exact h
    | cons a rest =>
      dsimp only
      rw [hq] at h
      simp only [List.length_cons] at h
      omega
  · intro hf hb hdn
    unfold sendCancelRequest
    rw [if_neg hb, hdn, if_neg Bool.false_ne_true, if_pos hf]

/-- Connection state for the C9 witness: the cancel queue is full. -/
def c9FullState : ConnState :=
  { emptyConn with pendingCancelRequest := List.replicate 1024 "1".data }

/-- Witness for C9: enqueueing into the full queue keeps the bound and only
adds the drop log. -/
theorem c9_cancel_queue_bounded_witness :
    (sendCancelRequest c9FullState false "2".data).pendingCancelRequest.length ≤
      maxPendingCancelRequests ∧
    sendCancelRequest c9FullState false "2".data =
      { c9FullState with logs := [LogEvent.dropCancelQueueFull] } := by
  have hl : c9FullState.pendingCancelRequest.length = 1024 := by
    simp [c9FullState, List.length_replicate]
  obtain ⟨h1, _, h3, _⟩ :=
    c9_cancel_queue_bounded c9FullState false "2".data
      (by rw [hl]; exact Nat.le_refl _)
  refine ⟨h1, ?_⟩
  exact h3 (by rw [hl]; exact Nat.le_refl _) (by decide) rfl

/-! ## Claim C10: canonicalisation failure falls back to the raw bytes -/

/-- C10: when an inbound id fails to canonicalize, the message is not
dropped — the failure is logged and the raw bytes serve as the map key, so
a response still routes to a pending entry registered under those bytes, a
request is still registered inflight and its worker spawned, and a cancel
still reaches an inflight entry keyed by the same bytes. -/
theorem c10_canonicalisation_fallback (raw : List Char) (e : CanonErr)
    (he : canonicalJSONRPCIDKey raw = .error e) :
    idKeyOrRaw raw = raw ∧
    (∀ c msg, msg.id? = some raw → msg.method = [] → raw ∈ c.pending →
      processMessage c msg none =
        { c with pending := c.pending.erase raw,
                 delivered := (raw, msg) :: c.delivered,
                 logs := LogEvent.canonFailResponse raw :: c.logs }) ∧
    (∀ c msg cd, msg.id? = some raw → msg.method ≠ [] →
      processMessage c msg cd =
        { c with inflight := raw :: c.inflight,
                 spawnedRequests := (raw, msg) :: c.spawnedRequests,
                 logs := LogEvent.canonFailRequest raw :: c.logs }) ∧
    (∀ c, trimSpace raw ≠ [] → raw ∈ c.inflight →
      handleCancelRequest c (some raw) =
        { c with cancelled := (raw, GoErr.canceled) :: c.cancelled,
                 logs := LogEvent.canonFailCancel raw :: c.logs }) := by
  have hkey : idKeyOrRaw raw = raw := by
    unfold idKeyOrRaw
    rw [he]
  refine ⟨hkey, ?_, ?_, ?_⟩
  · intro c msg hi hm hmem
    unfold processMessage
    rw [if_neg (by simp [hi]), if_pos ⟨by simp [hi], hm⟩]
    unfold handleResponse
    rw [hi]
    dsimp only
    rw [he, hkey, if_pos hmem]
  · intro c msg cd hi hm
    unfold processMessage
    rw [if_neg (by simp [hi]),
        if_neg (by intro hc; exact hm hc.2), if_pos hm, hi]
    dsimp only
    rw [he, hkey]
  · intro c hb hmem
    unfold handleCancelRequest
    dsimp only
    rw [if_neg hb, he, hkey, if_pos hmem]

/-- Connection state for the C10 witness: the uncanonicalizable id `x` is
registered both as a pending key and as an inflight key. -/
def c10State : ConnState :=
  { emptyConn with pending := ["x".data], inflight := ["x".data] }

/-- The response message of the C10 witness, echoing the raw id `x`. -/
def c10Msg : AnyMessage :=
  { id? := some "x".data,
    method := [],
    params := [],
    result := "7".data,
    error? := none }

/-- Witness for C10: the id `x` does not canonicalize, yet the response
bearing it still routes to the pending entry registered under those bytes,
with the failure logged. -/
theorem c10_canonicalisation_fallback_witness :
    idKeyOrRaw "x".data = "x".data ∧
    processMessage c10State c10Msg none =
      { c10State with
          pending := c10State.pending.erase "x".data,
          delivered := [("x".data, c10Msg)],
          logs := [LogEvent.canonFailResponse "x".data] } := by
  obtain ⟨h1, h2, _, _⟩ :=
    c10_canonicalisation_fallback "x".data .badType (by decide)
  exact ⟨h1, h2 c10State c10Msg rfl rfl (by decide)⟩

/-! ## Claim C8: silent extension notifications -/

/-- Outcome of `json.Marshal` on the value a handler returns. -/
inductive MarshalOut where
  | bytes (b : List Char)
  | fails (e : List Char)
  deriving DecidableEq, Repr

/-- What `c.handler(ctx, method, params)` yields: the marshal outcome of the
returned value and the optional structured error. -/
structure HandlerOutcome where
  result : MarshalOut
  err? : Option RequestError

/-- A registered handler, as the transport sees it. -/
def Handler := List Char → List Char → HandlerOutcome

/-- `strings.HasPrefix(method, "_")`. -/
def startsWithUnderscore : List Char → Bool
  | [] => false
  | c :: _ => c = '_'

/-- Translation of `handleInbound` (`connection.go`, lines 440-479): a nil
handler answers requests with method-not-found and drops notifications; with
a handler, a notification sends no reply — a handler error is logged unless
its code is `-32601` and the method starts with `_` — and a request is
answered with the handler error, the marshalled result, or an internal
error when the result fails to marshal. -/
def handleInbound (c : ConnState) (handler? : Option Handler) (req : AnyMessage) :
    ConnState :=
  match handler? with
  | none =>
    match req.id? with
    | some idRaw =>
      { c with wire := { id? := some idRaw, method := [], params := [],
                         result := [],
                         error? := some (NewMethodNotFound req.method) } :: c.wire }
    | none => c
  | some h =>
    let out := h req.method req.params
    match req.id? with
    | none =>
      match out.err? with
      | none => c
      | some err =>
        if err.code = -32601 ∧ startsWithUnderscore req.method = true then c
        else { c with logs :=
                 LogEvent.notificationHandlerError req.method err.code :: c.logs }
    | some idRaw =>
      match out.err? with
      | some err =>
        { c with wire := { id? := some idRaw, method := [], params := [],
                           result := [], error? := some err } :: c.wire }
      | none =>
        match out.result with
        | .bytes b =>
          { c with wire := { id? := some idRaw, method := [], params := [],
                             result := b, error? := none } :: c.wire }
        | .fails e =>
          { c with wire := { id? := some idRaw, method := [], params := [],
                             result := [],
                             error? := some (NewInternalError e) } :: c.wire }

/-- Translation of `AgentSideConnection.handleWithExtensions`
(`agent.go`) for a domain object that does not implement
`ExtensionMethodHandler`: a method starting with `_` gets
`NewMethodNotFound` (the returned `nil` would marshal to `null`); anything
else goes to the base handler. -/
def handleWithExtensionsNoExt (base : Handler) : Handler :=
  fun method params =>
    if startsWithUnderscore method then
      { result := MarshalOut.bytes "null".data,
        err? := some (NewMethodNotFound method) }
    else base method params

/-- C8: a notification (no id) whose method starts with `_` and whose
handler reports code `-32601` is dropped silently — no reply, no log, no
state change at all; in particular the extension adapter over a domain
object with no extension handler reports exactly `NewMethodNotFound`
(code `-32601`) for such methods, so those notifications are silent. -/
theorem c8_extension_notification_silent (c : ConnState) (h : Handler)
    (req : AnyMessage) (err : RequestError)
    (hid : req.id? = none)
    (hu : startsWithUnderscore req.method = true)
    (herr : (h req.method req.params).err? = some err)
    (hcode : err.code = -32601) :
    handleInbound c (some h) req = c ∧
    (∀ base, handleWithExtensionsNoExt base req.method req.params =
        { result := MarshalOut.bytes "null".data,
          err? := some (NewMethodNotFound req.method) } ∧
      (NewMethodNotFound req.method).code = -32601 ∧
      handleInbound c (some (handleWithExtensionsNoExt base)) req = c) := by
  have hsilent : ∀ g : Handler, (g req.method req.params).err? = some err →
      handleInbound c (some g) req = c := by
    intro g hg
    unfold handleInbound
    rw [hid]
    dsimp only
    rw [hg]
    dsimp only
    rw [if_pos ⟨hcode, hu⟩]
  have hadapt : ∀ base, handleWithExtensionsNoExt base req.method req.params =
      { result := MarshalOut.bytes "null".data,
        err? := some (NewMethodNotFound req.method) } := by
    intro base
    unfold handleWithExtensionsNoExt
    rw [hu]
    rfl
  refine ⟨hsilent h herr, fun base => ⟨hadapt base, rfl, ?_⟩⟩
  unfold handleInbound
  rw [hid]
  dsimp only
  rw [hadapt base]
  dsimp only
  rw [if_pos ⟨rfl, hu⟩]

/-- The handler of the C8 witness: it answers every method with
method-not-found. -/
def c8Handler : Handler :=
  fun method _ =>
    { result := MarshalOut.bytes "null".data,
      err? := some (NewMethodNotFound method) }

/-- The extension notification of the C8 witness. -/
def c8Msg : AnyMessage :=
  { id? := none,
    method := "_x".data,
    params := [],
    result := [],
    error? := none }

/-- Witness for C8: the `_x` notification whose handler reports `-32601`
leaves the connection state untouched. -/
theorem c8_extension_notification_silent_witness :
    handleInbound emptyConn (some c8Handler) c8Msg = emptyConn :=
  (c8_extension_notification_silent emptyConn c8Handler c8Msg
    (NewMethodNotFound "_x".data) rfl rfl rfl rfl).1

/-! ## Claim C3: prompt drain

The reader loop (`receive`, lines 378-384) does `notificationWg.Add(1)` and
spawns a worker when it reads a notification line, and the worker's deferred
`Done` fires when the handler completes; `SendRequest` (lines 519-522) first
waits for its mailbox and then calls `notificationWg.Wait()` before
returning.  The interleavings of the reader goroutine, the notification
workers and the waiting caller are modelled as a labelled transition
system. -/

/-- One line of the peer's stream: a notification, the response matching
the outstanding request, or anything else. -/
inductive LineKind where
  | notification
  | matchingResponse
  | otherLine
  deriving DecidableEq, Repr

/-- Joint state of the reader loop, the notification workers and the one
caller blocked in `SendRequest`: how many lines were read, the value of
`notificationWg`, which notification workers were spawned (by line index)
and which have completed, the line index at which the matching response was
read and delivered into the mailbox, whether `notificationWg.Wait()` has
returned, and whether `SendRequest` has returned. -/
structure Sys where
  readIdx : Nat
  wg : Nat
  spawned : Finset Nat
  done : Finset Nat
  resp : Option Nat
  waited : Bool
  returned : Bool
  deriving DecidableEq

/-- Initial state: nothing read, nothing spawned, the caller waiting. -/
def initSys : Sys :=
  { readIdx := 0, wg := 0, spawned := ∅, done := ∅,
    resp := none, waited := false, returned := false }

/-- The interleaving semantics.  The reader reads lines in order:
a notification line does `Add(1)` and spawns its worker before the next
line is read; the matching response line delivers into the mailbox; other
lines leave this state alone.  A spawned worker may complete (its deferred
`Done`) at any time.  The caller's `notificationWg.Wait()` returns only
after the mailbox delivery and at an instant when the counter is zero, and
`SendRequest` returns only after `Wait()` did. -/
inductive Step (script : List LineKind) : Sys → Sys → Prop where
  | readNotification {s : Sys}
      (h : script[s.readIdx]? = some LineKind.notification) :
      Step script s { s with readIdx := s.readIdx + 1, wg := s.wg + 1,
                             spawned := insert s.readIdx s.spawned }
  | readResponse {s : Sys}
      (h : script[s.readIdx]? = some LineKind.matchingResponse)
      (hr : s.resp = none) :
      Step script s { s with readIdx := s.readIdx + 1, resp := some s.readIdx }
  | readOther {s : Sys}
      (h : script[s.readIdx]? = some LineKind.otherLine) :
      Step script s { s with readIdx := s.readIdx + 1 }
  | finishNotification {s : Sys} {i : Nat}
      (hi : i ∈ s.spawned) (hd : i ∉ s.done) :
      Step script s { s with done := insert i s.done, wg := s.wg - 1 }
  | wait {s : Sys}
      (hrecv : s.resp.isSome = true) (hwg : s.wg = 0) :
      Step script s { s with waited := true }
  | ret {s : Sys} (hw : s.waited = true) :
      Step script s { s with returned := true }

/-- A state the system can reach from the initial state. -/
def ReachableSys (script : List LineKind) (s : Sys) : Prop :=
  Relation.ReflTransGen (Step script) initSys s

/-- The inductive invariant of the drain protocol. -/
structure DrainInv (script : List LineKind) (s : Sys) : Prop where
  wg_card : s.wg = (s.spawned \ s.done).card
  done_sub : s.done ⊆ s.spawned
  spawned_lt : ∀ i ∈ s.spawned, i < s.readIdx
  resp_lt : ∀ r, s.resp = some r → r < s.readIdx
  resp_line : ∀ r, s.resp = some r → script[r]? = some LineKind.matchingResponse
  waited_resp : s.waited = true → s.resp.isSome = true
  waited_drain : s.waited = true → ∀ r, s.resp = some r →
    ∀ i ∈ s.spawned, i < r → i ∈ s.done
  returned_waited : s.returned = true → s.waited = true
  spawned_complete : ∀ i, i < s.readIdx →
    script[i]? = some LineKind.notification → i ∈ s.spawned
  spawned_notif : ∀ i ∈ s.spawned, script[i]? = some LineKind.notification

lemma drainInv_init (script : List LineKind) : DrainInv script initSys :=
  { wg_card := rfl,
    done_sub := Finset.Subset.refl _,
    spawned_lt := fun i hi => absurd hi (Finset.not_mem_empty i),
    resp_lt := fun r hr => by simp [initSys] at hr,
    resp_line := fun r hr => by simp [initSys] at hr,
    waited_resp := fun h => by simp [initSys] at h,
    waited_drain := fun h => by simp [initSys] at h,
    returned_waited := fun h => by simp [initSys] at h,
    spawned_complete := fun i hi _ => by simp [initSys] at hi,
    spawned_notif := fun i hi => absurd hi (Finset.not_mem_empty i) }

lemma drainInv_step {script : List LineKind} {s s' : Sys}
    (inv : DrainInv script s) (hs : Step script s s') : DrainInv script s' := by
  cases hs with
  | readNotification h =>
    have hnotin : s.readIdx ∉ s.spawned :=
      fun hm => absurd (inv.spawned_lt _ hm) (lt_irrefl _)
    have hnotind : s.readIdx ∉ s.done := fun hd => hnotin (inv.done_sub hd)
    refine
      { wg_card := ?_,
        done_sub := (inv.done_sub).trans (Finset.subset_insert _ _),
        spawned_lt := ?_,
        resp_lt := fun r hr => Nat.lt_succ_of_lt (inv.resp_lt r hr),
        resp_line := inv.resp_line,
        waited_resp := inv.waited_resp,
        waited_drain := ?_,
        returned_waited := inv.returned_waited,
        spawned_complete := ?_,
        spawned_notif := ?_ }
    · rw [Finset.insert_sdiff_of_not_mem _ hnotind,
        Finset.card_insert_of_not_mem (fun hm => hnotin (Finset.mem_sdiff.mp hm).1),
        inv.wg_card]
    · intro i hi
      rcases Finset.mem_insert.mp hi with h1 | h1
      · show i < s.readIdx + 1
        omega
      · exact Nat.lt_succ_of_lt (inv.spawned_lt _ h1)
    · intro hw r hr i hi hir
      rcases Finset.mem_insert.mp hi with h1 | h1
      · exact absurd (inv.resp_lt r hr) (by omega)
      · exact inv.waited_drain hw r hr i h1 hir
    · intro i hi hline
      rcases Nat.lt_succ_iff_lt_or_eq.mp hi with h1 | h1
      · exact Finset.mem_insert_of_mem (inv.spawned_complete i h1 hline)
      · subst h1; exact Finset.mem_insert_self _ _
    · intro i hi
      rcases Finset.mem_insert.mp hi with h1 | h1
      · subst h1; exact h
      · exact inv.spawned_notif i h1
  | readResponse h hr =>
    refine
      { wg_card := inv.wg_card,
        done_sub := inv.done_sub,
        spawned_lt := fun i hi => Nat.lt_succ_of_lt (inv.spawned_lt i hi),
        resp_lt := ?_,
        resp_line := ?_,
        waited_resp := fun _ => rfl,
        waited_drain := ?_,
        returned_waited := inv.returned_waited,
        spawned_complete := ?_,
        spawned_notif := inv.spawned_notif }
    · intro r hr2
      injection hr2 with hr2
      show r < s.readIdx + 1
      omega
    · intro r hr2
      injection hr2 with hr2
      subst hr2; exact h
    · intro hw
      have := inv.waited_resp hw
      rw [hr] at this
      exact absurd this (by simp)
    · intro i hi hline
      rcases Nat.lt_succ_iff_lt_or_eq.mp hi with h1 | h1
      · exact inv.spawned_complete i h1 hline
      · subst h1; rw [h] at hline; exact absurd hline (by simp)
  | readOther h =>
    refine
      { wg_card := inv.wg_card,
        done_sub := inv.done_sub,
        spawned_lt := fun i hi => Nat.lt_succ_of_lt (inv.spawned_lt i hi),
        resp_lt := fun r hr => Nat.lt_succ_of_lt (inv.resp_lt r hr),
        resp_line := inv.resp_line,
        waited_resp := inv.waited_resp,
        waited_drain := inv.waited_drain,
        returned_waited := inv.returned_waited,
        spawned_complete := ?_,
        spawned_notif := inv.spawned_notif }
    intro i hi hline
    rcases Nat.lt_succ_iff_lt_or_eq.mp hi with h1 | h1
    · exact inv.spawned_complete i h1 hline
    · subst h1; rw [h] at hline; exact absurd hline (by simp)
  | finishNotification hi hd =>
    refine
      { wg_card := ?_,
        done_sub := Finset.insert_subset_iff.mpr ⟨hi, inv.done_sub⟩,
        spawned_lt := inv.spawned_lt,
        resp_lt := inv.resp_lt,
        resp_line := inv.resp_line,
        waited_resp := inv.waited_resp,
        waited_drain := fun hw r hr j hj hjr =>
          Finset.mem_insert_of_mem (inv.waited_drain hw r hr j hj hjr),
        returned_waited := inv.returned_waited,
        spawned_complete := inv.spawned_complete,
        spawned_notif := inv.spawned_notif }
    rw [Finset.sdiff_insert,
      Finset.card_erase_of_mem (Finset.mem_sdiff.mpr ⟨hi, hd⟩), inv.wg_card]
  | wait hrecv hwg =>
    have hsub : s.spawned ⊆ s.done := by
      have h0 : (s.spawned \ s.done).card = 0 := by rw [← inv.wg_card]; exact hwg
      have := Finset.card_eq_zero.mp h0
      exact Finset.sdiff_eq_empty_iff_subset.mp this
    exact
      { wg_card := inv.wg_card,
        done_sub := inv.done_sub,
        spawned_lt := inv.spawned_lt,
        resp_lt := inv.resp_lt,
        resp_line := inv.resp_line,
        waited_resp := fun _ => hrecv,
        waited_drain := fun _ r _ i hi _ => hsub hi,
        returned_waited := fun _ => rfl,
        spawned_complete := inv.spawned_complete,
        spawned_notif := inv.spawned_notif }
  | ret hw =>
    exact
      { wg_card := inv.wg_card,
        done_sub := inv.done_sub,
        spawned_lt := inv.spawned_lt,
        resp_lt := inv.resp_lt,
        resp_line := inv.resp_line,
        waited_resp := inv.waited_resp,
        waited_drain := inv.waited_drain,
        returned_waited := fun _ => hw,
        spawned_complete := inv.spawned_complete,
        spawned_notif := inv.spawned_notif }

lemma drainInv_reachable {script : List LineKind} {s : Sys}
    (h : ReachableSys script s) : DrainInv script s := by
  induction h with
  | refl => exact drainInv_init script
  | tail hab hbc ih => exact drainInv_step ih hbc

/-- Positions of `List.replicate K x ++ l`. -/
lemma replicate_append_get {α : Type} (K i : Nat) (x : α) (l : List α) :
    (i < K → (List.replicate K x ++ l)[i]? = some x) ∧
    (∀ j, i = K + j → (List.replicate K x ++ l)[i]? = l[j]?) := by
  constructor
  · intro hik
    have hlen : i < (List.replicate K x).length := by
      rw [List.length_replicate]; exact hik
    rw [List.getElem?_append, if_pos hlen, List.getElem?_eq_getElem hlen,
      List.getElem_replicate]
  · intro j hij
    subst hij
    have hlen : ¬ K + j < (List.replicate K x).length := by
      rw [List.length_replicate]; omega
    rw [List.getElem?_append, if_neg hlen, List.length_replicate]
    congr 1
    omega

/-- C3: in every reachable interleaving, once `SendRequest` has returned,
every notification line read strictly before the matching response line has
its worker spawned and completed; in particular, when the stream is `K`
notifications followed by the matching response, the response is read at
index `K` and all `K` notification handlers have completed. -/
theorem c3_prompt_drain (script : List LineKind) (s : Sys)
    (hreach : ReachableSys script s) (hret : s.returned = true) :
    (∀ r, s.resp = some r → ∀ i, i < r →
      script[i]? = some LineKind.notification → i ∈ s.spawned ∧ i ∈ s.done) ∧
    (∀ K, script = List.replicate K LineKind.notification ++
        [LineKind.matchingResponse] →
      ∀ r, s.resp = some r → r = K ∧ ∀ i, i < K → i ∈ s.done) := by
  have hinv := drainInv_reachable hreach
  have hmain : ∀ r, s.resp = some r → ∀ i, i < r →
      script[i]? = some LineKind.notification → i ∈ s.spawned ∧ i ∈ s.done := by
    intro r hresp i hir hline
    have hsp : i ∈ s.spawned :=
      hinv.spawned_complete i (hir.trans (hinv.resp_lt r hresp)) hline
    exact ⟨hsp, hinv.waited_drain (hinv.returned_waited hret) r hresp i hsp hir⟩
  refine ⟨hmain, ?_⟩
  intro K hscript r hresp
  have hline := hinv.resp_line r hresp
  rw [hscript] at hline
  have hrK : r = K := by
    rcases Nat.lt_trichotomy r K with h1 | h1 | h1
    · rw [(replicate_append_get K r LineKind.notification _).1 h1] at hline
      exact absurd hline (by simp)
    · exact h1
    · obtain ⟨j, hj⟩ : ∃ j, r = K + (j + 1) := ⟨r - K - 1, by omega⟩
      rw [(replicate_append_get K r LineKind.notification _).2 (j + 1) hj] at hline
      simp at hline
  refine ⟨hrK, fun i hiK => ?_⟩
  have hline2 : script[i]? = some LineKind.notification := by
    rw [hscript]
    exact (replicate_append_get K i LineKind.notification _).1 hiK
  exact (hmain r hresp i (by omega) hline2).2

/-- The two-line script of the C3 witness: one notification, then the
matching response. -/
def c3Script : List LineKind := [LineKind.notification, LineKind.matchingResponse]

/-- Final state of the C3 witness run: both lines read, the notification
worker spawned and completed, the response delivered, `Wait()` returned,
`SendRequest` returned. -/
def c3FinalSys : Sys :=
  { readIdx := 2, wg := 0, spawned := {0}, done := {0},
    resp := some 1, waited := true, returned := true }

lemma c3FinalSys_reachable : ReachableSys c3Script c3FinalSys :=
  Relation.ReflTransGen.head (Step.readNotification (by decide))
    (Relation.ReflTransGen.head (Step.readResponse (by decide) rfl)
      (Relation.ReflTransGen.head (Step.finishNotification (i := 0)
          (by decide) (by decide))
        (Relation.ReflTransGen.head (Step.wait rfl rfl)
          (Relation.ReflTransGen.head (Step.ret rfl)
            Relation.ReflTransGen.refl))))

/-- Witness for C3: the explicit run notification-response-finish-wait-return
reaches a returned state in which the notification worker has completed. -/
theorem c3_prompt_drain_witness :
    ReachableSys c3Script c3FinalSys ∧ c3FinalSys.returned = true ∧
    c3FinalSys.resp = some 1 ∧ (0 ∈ c3FinalSys.spawned ∧ 0 ∈ c3FinalSys.done) := by
  have h := c3_prompt_drain c3Script c3FinalSys c3FinalSys_reachable rfl
  exact ⟨c3FinalSys_reachable, rfl, rfl, h.1 1 rfl 0 (by omega) rfl⟩

end Acp

example : Acp.canonicalJSONRPCNumericIDKey "1".data = .ok "1".data := by decide
example : Acp.canonicalJSONRPCNumericIDKey "1.0".data = .ok "1".data := by decide
example : Acp.canonicalJSONRPCNumericIDKey "1e0".data = .ok "1".data := by decide
example : Acp.canonicalJSONRPCNumericIDKey "0.1".data = .ok "0.1".data := by decide
example : Acp.canonicalJSONRPCNumericIDKey "1e-1".data = .ok "0.1".data := by decide
example : Acp.canonicalJSONRPCNumericIDKey "-0".data = .ok "0".data := by decide
example : Acp.canonicalJSONRPCNumericIDKey "0".data = .ok "0".data := by decide
example : Acp.canonicalJSONRPCNumericIDKey "-12.50e1".data = .ok "-125".data := by decide
example : Acp.canonicalJSONRPCNumericIDKey "1e7000".data = .error .tooLarge := by decide
example : Acp.canonicalJSONRPCNumericIDKey "01".data = .error .invalidNumericID := by decide
example : Acp.canonicalJSONRPCNumericIDKey "1.".data = .error .invalidNumericID := by decide
example : Acp.canonicalJSONRPCIDKey "null".data = .ok "null".data := by decide
example : Acp.canonicalJSONRPCIDKey " 1e0 ".data = .ok "1".data := by decide
example : Acp.canonicalJSONRPCIDKey "\"a b\"".data = .ok "\"a b\"".data := by decide
example : Acp.canonicalJSONRPCIDKey "\"a<b\"".data = .ok "\"a\\u003cb\"".data := by decide
example : Acp.canonicalJSONRPCIDKey "true".data = .error .badType := by decide
example : Acp.canonicalJSONRPCIDKey "x".data = .error .badType := by decide
example : Acp.canonicalJSONRPCIDKey "".data = .error .emptyID := by decide
